import Mathlib

/-!
# SmallVm: a shallow embedding of `vm.go`

The Go program keeps two process-wide arrays, `memory [1<<16]uint16` and
`reg [R_COUNT]uint16`, and drives them from the loop in `main`.  Here both
arrays are total functions `Nat → Nat`; every `uint16` operation of the source
is written on `Nat` with an explicit `% 65536` where Go truncates.  The
standard streams are lists of code points.  A Go `panic` ends a step with the
status `fatal`, carrying the panic that was raised and the machine as it was
at that moment.
-/

namespace SmallVm

/-! ## Constants -/

/-- Number of memory cells, `MEMORY_MAX = 1 << 16`. -/
abbrev MEMORY_MAX : Nat := 65536

abbrev R_R0 : Nat := 0
abbrev R_R1 : Nat := 1
abbrev R_R2 : Nat := 2
abbrev R_R3 : Nat := 3
abbrev R_R4 : Nat := 4
abbrev R_R5 : Nat := 5
abbrev R_R6 : Nat := 6
abbrev R_R7 : Nat := 7
abbrev R_PC : Nat := 8
abbrev R_COND : Nat := 9
abbrev R_COUNT : Nat := 10

abbrev OP_BR : Nat := 0
abbrev OP_ADD : Nat := 1
abbrev OP_LD : Nat := 2
abbrev OP_ST : Nat := 3
abbrev OP_JSR : Nat := 4
abbrev OP_AND : Nat := 5
abbrev OP_LDR : Nat := 6
abbrev OP_STR : Nat := 7
abbrev OP_RTI : Nat := 8
abbrev OP_NOT : Nat := 9
abbrev OP_LDI : Nat := 10
abbrev OP_STI : Nat := 11
abbrev OP_JMP : Nat := 12
abbrev OP_RES : Nat := 13
abbrev OP_LEA : Nat := 14
abbrev OP_TRAP : Nat := 15

abbrev FL_POS : Nat := 1
abbrev FL_ZRO : Nat := 2
abbrev FL_NEG : Nat := 4

abbrev TRAP_GETC : Nat := 0x20
abbrev TRAP_OUT : Nat := 0x21
abbrev TRAP_PUTS : Nat := 0x22
abbrev TRAP_IN : Nat := 0x23
abbrev TRAP_PUTSP : Nat := 0x24
abbrev TRAP_HALT : Nat := 0x25

abbrev MR_KBSR : Nat := 0xFE00
abbrev MR_KBDR : Nat := 0xFE02

/-- Start address written to `reg[R_PC]` by `main`. -/
abbrev PC_START : Nat := 0x3000

/-! ## Machine state -/

/-- The panics the program can raise, by their message. -/
inductive Fatal where
  /-- `panic("hello?")` in `checkKey`. -/
  | hello
  /-- `panic("Cannot open a file")` in `readImage`. -/
  | cannotOpen
  /-- `panic("Cannot read file")` in `readImage`. -/
  | cannotRead
  /-- `panic("Bad Opcode")` in the default case of the opcode switch. -/
  | badOpcode
  deriving DecidableEq, Repr

/-- Where the process stands after some part of `main` has run. -/
inductive Status where
  /-- The loop variable `running` is still `true`. -/
  | running
  /-- The HALT trap has set `running = false`; `main` returns. -/
  | halted
  /-- A panic was raised. -/
  | fatal (p : Fatal)
  /-- No image argument: usage message and `os.Exit(1)`. -/
  | usage
  /-- A string-output trap loop that never leaves its `for c > 0`. -/
  | diverged
  deriving DecidableEq, Repr

/-- The global arrays together with the two standard streams. -/
structure VM where
  /-- The array `memory`; only indices below `MEMORY_MAX` are ever used. -/
  memory : Nat → Nat
  /-- The array `reg`; only indices below `R_COUNT` are ever used. -/
  reg : Nat → Nat
  /-- Code points written to standard output so far, oldest first. -/
  out : List Nat
  /-- Bytes of standard input not yet consumed. -/
  inp : List Nat

/-- A machine together with the status it was left in. -/
structure Outcome where
  status : Status
  vm : VM

/-- Assignment `reg[r] = v`. -/
def setReg (s : VM) (r v : Nat) : VM :=
  { s with reg := fun i => if i = r then v else s.reg i }

/-- The code point Go writes for `string(rune(c))`: surrogate halves are not
valid code points and are replaced by U+FFFD. -/
def runeOf (c : Nat) : Nat :=
  if 0xD800 ≤ c ∧ c ≤ 0xDFFF then 0xFFFD else c

/-- Appending to standard output (`fmt.Print` of a string). -/
def print (s : VM) (cs : List Nat) : VM :=
  { s with out := s.out ++ cs }

/-! ## Memory access -/

/-- The function `checkKey`: it panics before it can return. -/
def checkKey : Except Fatal Bool :=
  Except.error Fatal.hello

/-- The function `memWrite`. -/
def memWrite (s : VM) (addr val : Nat) : VM :=
  { s with memory := fun a => if a = addr then val else s.memory a }

/-- The function `memRead`: the value read and the machine afterwards, or the
panic raised by the keyboard poll. -/
def memRead (s : VM) (addr : Nat) : Except (Fatal × VM) (Nat × VM) :=
  if addr = MR_KBSR then
    match checkKey with
    | Except.error p => Except.error (p, s)
    | Except.ok true =>
      -- `os.Stdin.Read(b)` on a one-byte buffer that starts as zero
      let b := s.inp.headD 0 % 256
      let s1 := { s with inp := s.inp.tail }
      let s2 := memWrite s1 MR_KBSR ((1 <<< 15) % 65536)
      let s3 := memWrite s2 MR_KBDR b
      Except.ok (s3.memory addr, s3)
    | Except.ok false =>
      let s1 := memWrite s MR_KBSR 0
      Except.ok (s1.memory addr, s1)
  else
    Except.ok (s.memory addr, s)

/-! ## Helpers of the executor -/

/-- The function `signExtend`.  The shift `0xFFFF << bit_count` is a `uint16`
shift, hence the truncation.  Every call in the source passes a literal
`bit_count` of 5, 6, 9 or 11. -/
def signExtend (x bit_count : Nat) : Nat :=
  if (x >>> (bit_count - 1)) &&& 1 > 0 then
    x ||| ((0xFFFF <<< bit_count) % 65536)
  else
    x

/-- The function `updateFlags`. -/
def updateFlags (s : VM) (r : Nat) : VM :=
  if s.reg r = 0 then
    setReg s R_COND FL_ZRO
  else if (s.reg r >>> 15) > 0 then
    setReg s R_COND FL_NEG
  else
    setReg s R_COND FL_POS

/-- The loop of `TRAP_PUTS`, `for c > 0`: the output after the loop, or `none`
when `fuel` iterations did not reach a zero cell.  Memory is not written and
`index` is a `uint16`, so a loop that is still running after `MEMORY_MAX`
iterations never stops. -/
def putsLoop (memory : Nat → Nat) : Nat → Nat → List Nat → Option (List Nat)
  | 0, _, _ => none
  | fuel + 1, index, out =>
    let c := memory index
    if c > 0 then
      putsLoop memory fuel ((index + 1) % 65536) (out ++ [runeOf c])
    else
      some out

/-- The loop of `TRAP_PUTSP`, `for c > 0`, with the same convention as
`putsLoop`. -/
def putspLoop (memory : Nat → Nat) : Nat → Nat → List Nat → Option (List Nat)
  | 0, _, _ => none
  | fuel + 1, index, out =>
    let c := memory index
    if c > 0 then
      let char1 := c &&& 0xFF
      let char2 := c >>> 8
      putspLoop memory fuel ((index + 1) % 65536) (out ++ [runeOf char1] ++ [runeOf char2])
    else
      some out

/-- Code points of the text `HALT` followed by the newline of `fmt.Println`. -/
def haltText : List Nat := [72, 65, 76, 84, 10]

/-- Code points of the prompt `Enter a character: `. -/
def promptText : List Nat :=
  [69, 110, 116, 101, 114, 32, 97, 32, 99, 104, 97, 114, 97, 99, 116, 101, 114, 58, 32]

/-! ## The fetch-decode-execute loop -/

/-- The trap switch on `instr & 0xFF`, entered after `reg[R_R7] = reg[R_PC]`.
`scanf` stands for the library call `fmt.Scanf("%c", &b)`: from the pending
input it gives the value left in `b` and the input that remains.  The switch
has no default case, so any other vector leaves the machine as it is. -/
def execTrap (scanf : List Nat → Nat × List Nat) (instr : Nat) (s : VM) : Outcome :=
  let v := instr &&& 0xFF
  if v = TRAP_GETC then
    let b := (scanf s.inp).1 % 256
    let s1 := { s with inp := (scanf s.inp).2 }
    let s2 := setReg s1 R_R0 b
    ⟨Status.running, updateFlags s2 R_R0⟩
  else if v = TRAP_OUT then
    ⟨Status.running, print s [runeOf (s.reg R_R0)]⟩
  else if v = TRAP_PUTS then
    match putsLoop s.memory MEMORY_MAX (s.reg R_R0) s.out with
    | some o => ⟨Status.running, { s with out := o }⟩
    | none => ⟨Status.diverged, s⟩
  else if v = TRAP_IN then
    let s1 := print s promptText
    -- `var b byte` is never assigned: `string(b)` is the character with code 0
    let b := 0
    let s2 := print s1 [runeOf b]
    let s3 := setReg s2 R_R0 b
    ⟨Status.running, updateFlags s3 R_R0⟩
  else if v = TRAP_PUTSP then
    match putspLoop s.memory MEMORY_MAX (s.reg R_R0) s.out with
    | some o => ⟨Status.running, { s with out := o }⟩
    | none => ⟨Status.diverged, s⟩
  else if v = TRAP_HALT then
    ⟨Status.halted, print s haltText⟩
  else
    ⟨Status.running, s⟩

/-- The opcode switch of the loop body, entered with the fetched word `instr`
and `reg[R_PC]` already incremented. -/
def exec (scanf : List Nat → Nat × List Nat) (instr : Nat) (s : VM) : Outcome :=
  let op := instr >>> 12
  if op = OP_ADD then
    let r0 := (instr >>> 9) &&& 0x7
    let r1 := (instr >>> 6) &&& 0x7
    let imm_flag := (instr >>> 5) &&& 0x1
    if imm_flag = 1 then
      let imm5 := signExtend (instr &&& 0x1F) 5
      ⟨Status.running, updateFlags (setReg s r0 ((s.reg r1 + imm5) % 65536)) r0⟩
    else
      let r2 := instr &&& 0x5
      ⟨Status.running, updateFlags (setReg s r0 ((s.reg r1 + s.reg r2) % 65536)) r0⟩
  else if op = OP_AND then
    let r0 := (instr >>> 9) &&& 0x7
    let r1 := (instr >>> 6) &&& 0x7
    let imm_flag := (instr >>> 5) &&& 0x1
    if imm_flag > 0 then
      let imm5 := signExtend (instr &&& 0x1F) 5
      ⟨Status.running, updateFlags (setReg s r0 (s.reg r1 &&& imm5)) r0⟩
    else
      let r2 := instr &&& 0x7
      ⟨Status.running, updateFlags (setReg s r0 (s.reg r1 &&& s.reg r2)) r0⟩
  else if op = OP_NOT then
    let r0 := (instr >>> 9) &&& 0x7
    let r1 := (instr >>> 6) &&& 0x7
    ⟨Status.running, updateFlags (setReg s r0 (s.reg r1 ^^^ 0xFFFF)) r0⟩
  else if op = OP_BR then
    let pc_offset := signExtend (instr &&& 0x1FF) 9
    let cond_flag := (instr >>> 9) &&& 0x7
    if (cond_flag &&& s.reg R_COND) > 0 then
      ⟨Status.running, setReg s R_PC ((s.reg R_PC + pc_offset) % 65536)⟩
    else
      ⟨Status.running, s⟩
  else if op = OP_JMP then
    let r1 := (instr >>> 6) &&& 0x7
    ⟨Status.running, setReg s R_PC r1⟩
  else if op = OP_JSR then
    let long_flag := (instr >>> 11) &&& 1
    let s1 := setReg s R_R7 (s.reg R_PC)
    if long_flag > 0 then
      let long_pc_offset := signExtend (instr &&& 0x7FF) 11
      ⟨Status.running, setReg s1 R_PC ((s1.reg R_PC + long_pc_offset) % 65536)⟩
    else
      let r1 := (instr >>> 6) &&& 0x7
      ⟨Status.running, setReg s1 R_PC (s1.reg r1)⟩
  else if op = OP_LD then
    let r0 := (instr >>> 9) &&& 0x7
    let pc_offset := signExtend (instr &&& 0x1FF) 9
    match memRead s ((s.reg R_PC + pc_offset) % 65536) with
    | Except.error (p, s1) => ⟨Status.fatal p, s1⟩
    | Except.ok (v, s1) => ⟨Status.running, updateFlags (setReg s1 r0 v) r0⟩
  else if op = OP_LDI then
    let r0 := (instr >>> 9) &&& 0x7
    let pc_offset := signExtend (instr &&& 0x1FF) 9
    match memRead s ((s.reg R_PC + pc_offset) % 65536) with
    | Except.error (p, s1) => ⟨Status.fatal p, s1⟩
    | Except.ok (v, s1) => ⟨Status.running, updateFlags (setReg s1 r0 v) r0⟩
  else if op = OP_LDR then
    let r0 := (instr >>> 9) &&& 0x7
    let r1 := (instr >>> 6) &&& 0x7
    let offset := signExtend (instr &&& 0x3F) 6
    match memRead s ((s.reg r1 + offset) % 65536) with
    | Except.error (p, s1) => ⟨Status.fatal p, s1⟩
    | Except.ok (v, s1) => ⟨Status.running, updateFlags (setReg s1 r0 v) r0⟩
  else if op = OP_LEA then
    let r0 := (instr >>> 9) &&& 0x7
    let pc_offset := signExtend (instr &&& 0x1FF) 9
    ⟨Status.running, updateFlags (setReg s r0 ((s.reg R_PC + pc_offset) % 65536)) r0⟩
  else if op = OP_ST then
    let r0 := (instr >>> 9) &&& 0x7
    let pc_offset := signExtend (instr &&& 0x1FF) 9
    ⟨Status.running, memWrite s ((s.reg R_PC + pc_offset) % 65536) (s.reg r0)⟩
  else if op = OP_STI then
    let r0 := (instr >>> 9) &&& 0x7
    let pc_offset := signExtend (instr &&& 0x1FF) 9
    match memRead s ((s.reg R_PC + pc_offset) % 65536) with
    | Except.error (p, s1) => ⟨Status.fatal p, s1⟩
    | Except.ok (a, s1) => ⟨Status.running, memWrite s1 a (s1.reg r0)⟩
  else if op = OP_STR then
    let r0 := (instr >>> 9) &&& 0x7
    let r1 := (instr >>> 6) &&& 0x7
    let offset := signExtend (instr &&& 0x3F) 6
    ⟨Status.running, memWrite s ((s.reg r1 + offset) % 65536) (s.reg r0)⟩
  else if op = OP_TRAP then
    execTrap scanf instr (setReg s R_R7 (s.reg R_PC))
  else
    ⟨Status.fatal Fatal.badOpcode, s⟩

/-- One pass through the body of `for running`: fetch, increment of
`reg[R_PC]`, opcode switch. -/
def step (scanf : List Nat → Nat × List Nat) (s : VM) : Outcome :=
  match memRead s (s.reg R_PC) with
  | Except.error (p, s1) => ⟨Status.fatal p, s1⟩
  | Except.ok (instr, s1) =>
    exec scanf instr (setReg s1 R_PC ((s1.reg R_PC + 1) % 65536))

/-- The loop `for running`, cut off after `fuel` passes: a machine that is
still running after them is returned with status `running`; any other status
ends the loop at once. -/
def run (scanf : List Nat → Nat × List Nat) : Nat → VM → Outcome
  | 0, s => ⟨Status.running, s⟩
  | fuel + 1, s =>
    match step scanf s with
    | ⟨Status.running, s1⟩ => run scanf fuel s1
    | o => o

/-! ## Image loading and program start -/

/-- The byte `bytes[i]` of the buffer `make([]byte, MEMORY_MAX)` after
`file.Read(bytes)`: the file's byte when it has one there, zero otherwise. -/
def bufByte (file : List Nat) (i : Nat) : Nat :=
  if i < MEMORY_MAX then file.getD i 0 % 256 else 0

/-- The big-endian word `binary.BigEndian.Uint16(bytes[i:i+2])`. -/
def beUint16 (file : List Nat) (i : Nat) : Nat :=
  bufByte file i * 256 + bufByte file (i + 1)

/-- The loop `for i := 2; i < len(bytes); i += 2` of `readImage`, where
`len(bytes) = MEMORY_MAX`.  `fuel` bounds the number of passes; `readImage`
gives it more than the loop can use. -/
def readImageLoop (file : List Nat) : Nat → Nat → Nat → VM → VM
  | 0, _, _, s => s
  | fuel + 1, i, origin, s =>
    if i < MEMORY_MAX then
      readImageLoop file fuel (i + 2) ((origin + 1) % 65536)
        (memWrite s origin (beUint16 file i))
    else
      s

/-- The function `readImage`.  The argument is the content of the file at
`path`, `none` when it cannot be opened.  `file.Read` on an empty file reports
end of file, which is the second panic. -/
def readImage (file : Option (List Nat)) (s : VM) : Except (Fatal × VM) VM :=
  match file with
  | none => Except.error (Fatal.cannotOpen, s)
  | some [] => Except.error (Fatal.cannotRead, s)
  | some (b :: bs) =>
    let origin := beUint16 (b :: bs) 0
    Except.ok (readImageLoop (b :: bs) MEMORY_MAX 2 origin s)

/-- The loop `for i,v := range os.Args` of `main`, over the arguments after the
program name. -/
def readImages : List (Option (List Nat)) → VM → Except (Fatal × VM) VM
  | [], s => Except.ok s
  | f :: fs, s =>
    match readImage f s with
    | Except.error e => Except.error e
    | Except.ok s1 => readImages fs s1

/-- The zero-valued globals at process start, with `inp` on standard input. -/
def initVM (inp : List Nat) : VM :=
  { memory := fun _ => 0, reg := fun _ => 0, out := [], inp := inp }

/-- The machine as `main` leaves it before the first fetch. -/
def boot (s : VM) : VM :=
  setReg (setReg s R_COND FL_ZRO) R_PC PC_START

/-- The function `main`: `args` are the image files named on the command line
(`os.Args[1:]`), `inp` is standard input, `fuel` cuts the loop as in `run`. -/
def main (scanf : List Nat → Nat × List Nat) (args : List (Option (List Nat)))
    (inp : List Nat) (fuel : Nat) : Outcome :=
  if args.length + 1 < 2 then
    ⟨Status.usage, initVM inp⟩
  else
    match readImages args (initVM inp) with
    | Except.error (p, s) => ⟨Status.fatal p, s⟩
    | Except.ok s => run scanf fuel (boot s)

/-! ## Vocabulary of the specification -/

/-- The bit field `bits[hi:lo]` of the word `w`, read as a number. -/
def bits (w hi lo : Nat) : Nat :=
  w / 2 ^ lo % 2 ^ (hi + 1 - lo)

/-- The word `v` read as a signed two-complement number of `width` bits: `v`
when bit `width - 1` is clear, `v - 2 ^ width` when it is set. -/
def toSigned (width v : Nat) : Int :=
  if bits v (width - 1) (width - 1) = 1 then (v : Int) - 2 ^ width else (v : Int)

/-- The flag determined by a 16-bit value `v`: ZERO when it is 0, NEGATIVE when
bit 15 is set, POSITIVE otherwise. -/
def flagOf (v : Nat) : Nat :=
  if v = 0 then FL_ZRO else if bits v 15 15 = 1 then FL_NEG else FL_POS

/-- What a store instruction fetched at `a` is to leave behind in `o` when run
from `s`: the machine is running, cell `addr` holds `val`, every other cell,
every register but `PC` is as in `s`, and `PC = (a + 1) mod 2^16`. -/
def StoreEffect (s : VM) (a : Nat) (o : Outcome) (addr val : Nat) : Prop :=
  o.status = Status.running ∧ o.vm.memory addr = val ∧
  (∀ x, x ≠ addr → o.vm.memory x = s.memory x) ∧
  (∀ r, r ≠ R_PC → o.vm.reg r = s.reg r) ∧
  o.vm.reg R_PC = (a + 1) % 65536

/-- What an instruction that sets register `r0` is to leave behind in `o`: the
machine is running and the condition-flag register holds exactly one flag, the
one determined by the new value of `reg[r0]`. -/
def FlagsSet (o : Outcome) (r0 : Nat) : Prop :=
  o.status = Status.running ∧ o.vm.reg R_COND = flagOf (o.vm.reg r0) ∧
  (o.vm.reg R_COND = FL_POS ∨ o.vm.reg R_COND = FL_ZRO ∨ o.vm.reg R_COND = FL_NEG)

/-- The contents of the `n` cells `memory[start]`, `memory[start + 1]`, ...,
addresses taken mod `2^16`. -/
def cellsFrom (memory : Nat → Nat) (start n : Nat) : List Nat :=
  (List.range n).map (fun k => memory ((start + k) % 65536))

/-- The bytes of a list of cells, for each cell the low byte and then the high
byte. -/
def packedBytes (cells : List Nat) : List Nat :=
  cells.flatMap (fun c => [bits c 7 0, bits c 15 8])

/-! ## Sample machines -/

/-- A sample behaviour of `fmt.Scanf("%c", &b)`: it takes the first pending
byte, and leaves `b` zero when there is none. -/
def scanfHead : List Nat → Nat × List Nat :=
  fun inp => (inp.headD 0, inp.tail)

/-- The machine whose memory holds the listed `(address, value)` cells and
whose registers hold the listed `(index, value)` pairs, everything else being
zero and both streams empty. -/
def mkVM (cells regs : List (Nat × Nat)) : VM :=
  { memory := fun a => (cells.lookup a).getD 0
    reg := fun r => (regs.lookup r).getD 0
    out := []
    inp := [] }

/-- `ADD R0, R1, R2` (word `0x1042`) at `0x3000`, with `R1 = 1` and `R2 = 2`. -/
def addRegVM : VM :=
  mkVM [(0x3000, 0x1042)] [(R_R1, 1), (R_R2, 2), (R_PC, 0x3000)]

/-- `JMP R1` (word `0xC040`) at `0x3000`, with `R1 = 0x4000`. -/
def jmpVM : VM :=
  mkVM [(0x3000, 0xC040)] [(R_R1, 0x4000), (R_PC, 0x3000)]

/-- `LDI R0, #1` (word `0xA001`) at `0x3000`; cell `0x3002` holds the pointer
`0x4000` and cell `0x4000` holds `0x002A`. -/
def ldiVM : VM :=
  mkVM [(0x3000, 0xA001), (0x3002, 0x4000), (0x4000, 0x002A)] [(R_PC, 0x3000)]

/-- `JSR #5` (word `0x4805`, bit 11 set) at `0x3000`. -/
def jsrVM : VM :=
  mkVM [(0x3000, 0x4805)] [(R_PC, 0x3000)]

/-- `BRzp #5` (word `0x0605`: condition bits ZERO and POSITIVE) at `0x3000`,
with the condition-flag register holding POSITIVE. -/
def brzpVM : VM :=
  mkVM [(0x3000, 0x0605)] [(R_PC, 0x3000), (R_COND, FL_POS)]

/-- `BRz #5` (word `0x0405`: condition bit ZERO only) at `0x3000`, with the
condition-flag register holding ZERO. -/
def brzVM : VM :=
  mkVM [(0x3000, 0x0405)] [(R_PC, 0x3000), (R_COND, FL_ZRO)]

/-- A machine whose register `R3` holds `0x8001`. -/
def flagsVM : VM :=
  mkVM [] [(R_R3, 0x8001)]

/-- The image of the first end-to-end scenario: header word `0x3000`, then
`0x1025` (`ADD R0, R0, #5`) and `0xF025` (`TRAP HALT`), as big-endian bytes. -/
def addHaltImage : List Nat := [0x30, 0x00, 0x10, 0x25, 0xF0, 0x25]

/-- A TRAP word with the undefined vector `0xFF` at `0x3000`, followed by
`TRAP HALT` at `0x3001`. -/
def trapVM : VM :=
  mkVM [(0x3000, 0xF0FF), (0x3001, 0xF025)] [(R_PC, 0x3000)]

/-- A word with the reserved opcode RES (`0xD000`) at `0x3000`, followed by
`ADD R0, R0, #5` at `0x3001`; `R0` holds 7. -/
def resVM : VM :=
  mkVM [(0x3000, 0xD000), (0x3001, 0x1025)] [(R_PC, 0x3000), (R_R0, 7)]

/-- `LDR R0, R1, #0` (word `0x6040`) at `0x3000`, with `R1` holding the
keyboard-status address and no input pending. -/
def kbVM : VM :=
  mkVM [(0x3000, 0x6040)] [(R_PC, 0x3000), (R_R1, MR_KBSR)]

/-- `AND R2, R1, R3` (word `0x5443`) at `0x3000`, with `R1 = 0x0FF0` and
`R3 = 0x3C3C`. -/
def andVM : VM :=
  mkVM [(0x3000, 0x5443)] [(R_PC, 0x3000), (R_R1, 0x0FF0), (R_R3, 0x3C3C)]

/-- `LEA R0, #-2` (word `0xE1FE`) at `0x3000`. -/
def leaVM : VM :=
  mkVM [(0x3000, 0xE1FE)] [(R_PC, 0x3000)]

/-- `NOT R1, R2` (word `0x92BF`) at `0x3000`, with `R2 = 0x00FF`. -/
def notVM : VM :=
  mkVM [(0x3000, 0x92BF)] [(R_PC, 0x3000), (R_R2, 0x00FF), (R_COND, FL_ZRO)]

/-- `STI R1, #1` (word `0xB201`) at `0x3000`, with `R1 = 0x00AB`; cell `0x3002`
holds the pointer `0x4000`. -/
def stiVM : VM :=
  mkVM [(0x3000, 0xB201), (0x3002, 0x4000)] [(R_PC, 0x3000), (R_R1, 0x00AB)]

/-- `TRAP IN` (word `0xF023`) at `0x3000`, with the character `A` pending on
standard input. -/
def inVM : VM :=
  { mkVM [(0x3000, 0xF023)] [(R_PC, 0x3000)] with inp := [0x41] }

/-- `TRAP GETC` (word `0xF020`) at `0x3000`, with the character `A` pending on
standard input. -/
def getcVM : VM :=
  { mkVM [(0x3000, 0xF020)] [(R_PC, 0x3000)] with inp := [0x41] }

/-- `TRAP PUTS` (word `0xF022`) at `0x3000`, with `R0 = 0x4000` and the cells
`0x48`, `0x69`, `0` from `0x4000` on. -/
def putsVM : VM :=
  mkVM [(0x3000, 0xF022), (0x4000, 0x48), (0x4001, 0x69)] [(R_PC, 0x3000), (R_R0, 0x4000)]

/-- `TRAP PUTSP` (word `0xF024`) at `0x3000`, with `R0 = 0x4000` and the cells
`0x4100` (low byte zero), `0x4242`, `0` from `0x4000` on. -/
def putspVM : VM :=
  mkVM [(0x3000, 0xF024), (0x4000, 0x4100), (0x4001, 0x4242)] [(R_PC, 0x3000), (R_R0, 0x4000)]

/-- `TRAP PUTSP` (word `0xF024`) at `0x3000`, with `R0 = 0x4000` and the cells
`0x6948`, `0x2121`, `0` from `0x4000` on. -/
def putspTextVM : VM :=
  mkVM [(0x3000, 0xF024), (0x4000, 0x6948), (0x4001, 0x2121)] [(R_PC, 0x3000), (R_R0, 0x4000)]

/-- An image whose header word is `0x4000`, followed by the single word
`0xF025` (`TRAP HALT`), as big-endian bytes. -/
def originImage : List Nat := [0x40, 0x00, 0xF0, 0x25]

/-- An image whose header word is `0x3005`, followed by the single word
`0x1234`, as big-endian bytes. -/
def tailImage : List Nat := [0x30, 0x05, 0x12, 0x34]

/-! ## Basic facts about fetching and decoding -/

theorem memRead_ok (s : VM) (addr : Nat) (h : addr ≠ MR_KBSR) :
    memRead s addr = Except.ok (s.memory addr, s) := by
  simp [memRead, h]

theorem step_fetch (scanf : List Nat → Nat × List Nat) (s : VM) (h : s.reg R_PC ≠ MR_KBSR) :
    step scanf s =
      exec scanf (s.memory (s.reg R_PC)) (setReg s R_PC ((s.reg R_PC + 1) % 65536)) := by
  simp [step, memRead_ok s _ h, setReg]

theorem field_11_9 (w : Nat) : (w >>> 9) &&& 0x7 = bits w 11 9 := by
  rw [Nat.shiftRight_eq_div_pow]; exact Nat.and_pow_two_sub_one_eq_mod _ 3

theorem field_8_6 (w : Nat) : (w >>> 6) &&& 0x7 = bits w 8 6 := by
  rw [Nat.shiftRight_eq_div_pow]; exact Nat.and_pow_two_sub_one_eq_mod _ 3

theorem field_11 (w : Nat) : (w >>> 11) &&& 1 = bits w 11 11 := by
  rw [Nat.shiftRight_eq_div_pow]; exact Nat.and_pow_two_sub_one_eq_mod _ 1

theorem field_5 (w : Nat) : (w >>> 5) &&& 0x1 = bits w 5 5 := by
  rw [Nat.shiftRight_eq_div_pow]; exact Nat.and_pow_two_sub_one_eq_mod _ 1

theorem field_10_0 (w : Nat) : w &&& 0x7FF = bits w 10 0 := by
  simp [bits]; exact Nat.and_pow_two_sub_one_eq_mod _ 11

theorem field_8_0 (w : Nat) : w &&& 0x1FF = bits w 8 0 := by
  simp [bits]; exact Nat.and_pow_two_sub_one_eq_mod _ 9

theorem field_7_0 (w : Nat) : w &&& 0xFF = bits w 7 0 := by
  simp [bits]; exact Nat.and_pow_two_sub_one_eq_mod _ 8

theorem field_5_0 (w : Nat) : w &&& 0x3F = bits w 5 0 := by
  simp [bits]; exact Nat.and_pow_two_sub_one_eq_mod _ 6

theorem field_4_0 (w : Nat) : w &&& 0x1F = bits w 4 0 := by
  simp [bits]; exact Nat.and_pow_two_sub_one_eq_mod _ 5

theorem field_2_0 (w : Nat) : w &&& 0x7 = bits w 2 0 := by
  simp [bits]; exact Nat.and_pow_two_sub_one_eq_mod _ 3

/-! ## The loop and its statuses -/

theorem run_succ_running (scanf : List Nat → Nat × List Nat) (n : Nat) (s s1 : VM)
    (h : step scanf s = ⟨Status.running, s1⟩) : run scanf (n + 1) s = run scanf n s1 := by
  simp [run, h]

theorem run_succ_stop (scanf : List Nat → Nat × List Nat) (n : Nat) (s : VM) (st : Status)
    (s1 : VM) (h : step scanf s = ⟨st, s1⟩) (hs : st ≠ Status.running) :
    run scanf (n + 1) s = ⟨st, s1⟩ := by
  unfold run
  rw [h]
  cases st <;> simp_all

theorem memRead_cases (s : VM) (addr : Nat) :
    memRead s addr = Except.error (Fatal.hello, s) ∨
    memRead s addr = Except.ok (s.memory addr, s) := by
  by_cases h : addr = MR_KBSR
  · left; simp [memRead, h, checkKey]
  · right; exact memRead_ok s addr h

theorem memRead_error (s : VM) (addr : Nat) (p : Fatal) (s1 : VM)
    (h : memRead s addr = Except.error (p, s1)) : p = Fatal.hello := by
  rcases memRead_cases s addr with h1 | h1 <;> rw [h1] at h
  · injection h with h; injection h with h _; exact h.symm
  · cases h

theorem execTrap_status (scanf : List Nat → Nat × List Nat) (instr : Nat) (s : VM) (p : Fatal) :
    (execTrap scanf instr s).status ≠ Status.fatal p := by
  unfold execTrap
  simp only
  repeat' split
  all_goals simp

theorem exec_status (scanf : List Nat → Nat × List Nat) (instr : Nat) (s : VM)
    (h16 : instr >>> 12 < 16) (h8 : instr >>> 12 ≠ OP_RTI) (h13 : instr >>> 12 ≠ OP_RES) :
    (exec scanf instr s).status ≠ Status.fatal Fatal.badOpcode := by
  unfold exec
  simp only [OP_RTI, OP_RES] at h8 h13
  simp only [OP_ADD, OP_AND, OP_NOT, OP_BR, OP_JMP, OP_JSR, OP_LD, OP_LDI, OP_LDR, OP_LEA,
    OP_ST, OP_STI, OP_STR, OP_TRAP]
  generalize instr >>> 12 = op at h16 h8 h13
  interval_cases op
  all_goals first
    | contradiction
    | (simp only [reduceIte, Nat.reduceEqDiff]; exact execTrap_status scanf instr _ _)
    | (simp only [reduceIte, Nat.reduceEqDiff]; split <;> simp; done)
    | (simp only [reduceIte, Nat.reduceEqDiff]; simp; done)
    | (simp only [reduceIte, Nat.reduceEqDiff]
       split
       · rename_i p s1 heq
         rw [memRead_error _ _ _ _ heq]
         simp
       · simp)

theorem updateFlags_frame (s : VM) (r : Nat) :
    (∀ i, i ≠ R_COND → (updateFlags s r).reg i = s.reg i) ∧
    (updateFlags s r).memory = s.memory ∧
    (updateFlags s r).out = s.out ∧ (updateFlags s r).inp = s.inp := by
  unfold updateFlags
  split
  · exact ⟨fun i hi => by simp [setReg, hi], rfl, rfl, rfl⟩
  · split
    · exact ⟨fun i hi => by simp [setReg, hi], rfl, rfl, rfl⟩
    · exact ⟨fun i hi => by simp [setReg, hi], rfl, rfl, rfl⟩

/-! ## Image loading -/

theorem readImageLoop_frame (file : List Nat) :
    ∀ (fuel i origin : Nat) (s : VM),
      (readImageLoop file fuel i origin s).reg = s.reg ∧
      (readImageLoop file fuel i origin s).out = s.out ∧
      (readImageLoop file fuel i origin s).inp = s.inp := by
  intro fuel
  induction fuel with
  | zero => intro i origin s; simp [readImageLoop]
  | succ n ih =>
    intro i origin s
    unfold readImageLoop
    split
    · have h := ih (i + 2) ((origin + 1) % 65536) (memWrite s origin (beUint16 file i))
      simpa [memWrite] using h
    · simp

theorem readImageLoop_untouched (file : List Nat) :
    ∀ (fuel i origin : Nat) (s : VM) (a : Nat), origin < 65536 →
      (∀ k, k < fuel → i + 2 * k < MEMORY_MAX → (origin + k) % 65536 ≠ a) →
      (readImageLoop file fuel i origin s).memory a = s.memory a := by
  intro fuel
  induction fuel with
  | zero => intro i origin s a _ _; simp [readImageLoop]
  | succ n ih =>
    intro i origin s a ho h
    unfold readImageLoop
    split
    · next hi =>
      rw [ih (i + 2) ((origin + 1) % 65536) (memWrite s origin (beUint16 file i)) a
        (Nat.mod_lt _ (by decide))]
      · have h0 := h 0 (by omega) (by simpa using hi)
        have : a ≠ origin := by
          intro e; apply h0; subst e; simp; omega
        simp [memWrite, this]
      · intro k hk hik
        have := h (k + 1) (by omega) (by simp only [MEMORY_MAX] at hik ⊢; omega)
        intro e; apply this; omega
    · rfl

theorem readImageLoop_written (file : List Nat) :
    ∀ (fuel i origin : Nat) (s : VM) (k : Nat), origin < 65536 →
      k < fuel → i + 2 * k < MEMORY_MAX →
      (∀ j, k < j → j < fuel → i + 2 * j < MEMORY_MAX →
        (origin + j) % 65536 ≠ (origin + k) % 65536) →
      (readImageLoop file fuel i origin s).memory ((origin + k) % 65536) =
        beUint16 file (i + 2 * k) := by
  intro fuel
  induction fuel with
  | zero => intro i origin s k _ hk; omega
  | succ n ih =>
    intro i origin s k ho hk hik h
    unfold readImageLoop
    have hi : i < MEMORY_MAX := by omega
    rw [if_pos hi]
    cases k with
    | zero =>
      rw [readImageLoop_untouched file n (i + 2) ((origin + 1) % 65536) _ _
        (Nat.mod_lt _ (by decide))]
      · simp [memWrite, Nat.mod_eq_of_lt ho]
      · intro j hj hij
        have := h (j + 1) (by omega) (by omega) (by simp only [MEMORY_MAX] at hij ⊢; omega)
        intro e; apply this; omega
    | succ k =>
      have := ih (i + 2) ((origin + 1) % 65536) (memWrite s origin (beUint16 file i)) k
        (Nat.mod_lt _ (by decide)) (by omega) (by simp only [MEMORY_MAX] at hik ⊢; omega)
        (by
          intro j hkj hj hij
          have := h (j + 1) (by omega) (by omega) (by simp only [MEMORY_MAX] at hij ⊢; omega)
          intro e; apply this; omega)
      have e1 : ((origin + 1) % 65536 + k) % 65536 = (origin + (k + 1)) % 65536 := by omega
      have e2 : i + 2 + 2 * k = i + 2 * (k + 1) := by omega
      rw [e1, e2] at this
      exact this

theorem main_single_image (scanf : List Nat → Nat × List Nat) (b : Nat) (bs inp : List Nat)
    (fuel : Nat) :
    main scanf [some (b :: bs)] inp fuel =
      run scanf fuel
        (boot (readImageLoop (b :: bs) MEMORY_MAX 2 (beUint16 (b :: bs) 0) (initVM inp))) := by
  simp [main, readImages, readImage]

/-! ## ADD, JMP, LDI: where the code departs from the architecture -/

/-- C1 (the code at the failing input).  The word `0x1042` is an ADD in
register mode with destination `R0`, first source `R1` and `bits[2:0] = 2`,
so the claim asks for `R0 = R1 + R2 = 3`.  The code masks the second source
with `0x5`, reads `R0` instead of `R2`, and leaves `R0 = R1 + R0 = 1`. -/
theorem add_register_mode_reads_wrong_source :
    0x1042 >>> 12 = OP_ADD ∧ bits 0x1042 5 5 = 0 ∧ bits 0x1042 11 9 = R_R0 ∧
    bits 0x1042 8 6 = R_R1 ∧ bits 0x1042 2 0 = R_R2 ∧
    (addRegVM.reg R_R1 + addRegVM.reg R_R2) % 65536 = 3 ∧
    (step scanfHead addRegVM).status = Status.running ∧
    (step scanfHead addRegVM).vm.reg R_R0 = 1 := by
  decide

/-- C2 (the code at the failing input).  The word `0xC040` is `JMP R1`; with
`R1 = 0x4000` the claim asks for `PC = 0x4000`.  The code stores the register
index, so the step leaves `PC = 1`. -/
theorem jmp_stores_register_index :
    0xC040 >>> 12 = OP_JMP ∧ bits 0xC040 8 6 = R_R1 ∧ jmpVM.reg R_R1 = 0x4000 ∧
    (step scanfHead jmpVM).status = Status.running ∧
    (step scanfHead jmpVM).vm.reg R_PC = 1 := by
  decide

/-- C3 (the code at the failing input).  The word `0xA001` is `LDI R0, #1`
fetched at `0x3000`, so `p = 0x3002`; the cell at `p` holds `0x4000` and the
cell at `0x4000` holds `0x002A`.  The claim asks for `R0 = memory[memory[p]] =
0x002A`.  The code reads memory once, as LD does, and leaves `R0 = memory[p] =
0x4000`. -/
theorem ldi_reads_memory_once :
    0xA001 >>> 12 = OP_LDI ∧ bits 0xA001 11 9 = R_R0 ∧
    (0x3000 + 1 + signExtend (bits 0xA001 8 0) 9) % 65536 = 0x3002 ∧
    ldiVM.memory 0x3002 = 0x4000 ∧ ldiVM.memory (ldiVM.memory 0x3002) = 0x002A ∧
    (step scanfHead ldiVM).status = Status.running ∧
    (step scanfHead ldiVM).vm.reg R_R0 = 0x4000 := by
  decide

/-! ## JSR -/

/-- C4.  A JSR word fetched at an address `a` other than the keyboard-status
address leaves the machine running with `R7 = (a + 1) mod 2^16`.  With bit 11
set, `PC = (a + 1 + signExtend(bits[10:0], 11)) mod 2^16`.  With bit 11 clear,
`PC` is the value of the register named by `bits[8:6]`: the value it held
before the step for `R0..R6`, and the return address `a + 1` just saved when
the field names `R7`. -/
theorem jsr_step (scanf : List Nat → Nat × List Nat) (s : VM) (a instr : Nat)
    (ha : s.reg R_PC = a) (hk : a ≠ MR_KBSR) (hi : s.memory a = instr)
    (hop : instr >>> 12 = OP_JSR) :
    (step scanf s).status = Status.running ∧
    (step scanf s).vm.reg R_R7 = (a + 1) % 65536 ∧
    (bits instr 11 11 = 1 →
      (step scanf s).vm.reg R_PC = (a + 1 + signExtend (bits instr 10 0) 11) % 65536) ∧
    (bits instr 11 11 = 0 →
      (bits instr 8 6 ≠ 7 → (step scanf s).vm.reg R_PC = s.reg (bits instr 8 6)) ∧
      (bits instr 8 6 = 7 → (step scanf s).vm.reg R_PC = (a + 1) % 65536)) := by
  subst ha; subst hi
  rw [step_fetch scanf s hk]
  have hop2 : s.memory (s.reg 8) >>> 12 = 4 := hop
  simp only [exec, R_PC, R_R7, OP_ADD, OP_AND, OP_NOT, OP_BR, OP_JMP, OP_JSR, hop2,
    field_11, field_8_6, field_10_0]
  have hb : bits (s.memory (s.reg 8)) 11 11 = 0 ∨ bits (s.memory (s.reg 8)) 11 11 = 1 := by
    unfold bits; omega
  have h8 : bits (s.memory (s.reg 8)) 8 6 ≠ 8 := by
    unfold bits; omega
  rcases hb with hb | hb <;> simp [hb, setReg]
  exact ⟨fun h7 => by simp [h7, h8], fun h7 h7n => absurd h7 h7n⟩

/-- C4 at `JSR #5` fetched at `0x3000`: the machine keeps running with
`R7 = 0x3001` and `PC = 0x3006`. -/
theorem jsr_step_witness :
    (step scanfHead jsrVM).status = Status.running ∧
    (step scanfHead jsrVM).vm.reg R_R7 = 0x3001 ∧
    (step scanfHead jsrVM).vm.reg R_PC = 0x3006 :=
  have h := jsr_step scanfHead jsrVM 0x3000 0x4805 (by decide) (by decide) (by decide)
    (by decide)
  ⟨h.1, h.2.1, h.2.2.1 (by decide)⟩

/-! ## BR -/

/-- C5 as stated fails at `BRzp #5` fetched at `0x3000` with the
condition-flag register POSITIVE: the ZERO condition bit of the word is set
and the flag is POSITIVE, yet the branch is taken (the POSITIVE bit is set as
well), so `PC` becomes `0x3006` instead of advancing by one to `0x3001`. -/
theorem br_zero_bit_with_positive_flag_branches :
    0x0605 >>> 12 = OP_BR ∧ bits 0x0605 10 10 = 1 ∧ brzpVM.reg R_COND = FL_POS ∧
    brzpVM.reg R_PC = 0x3000 ∧ brzpVM.memory 0x3000 = 0x0605 ∧
    (step scanfHead brzpVM).vm.reg R_PC = 0x3006 ∧
    (step scanfHead brzpVM).vm.reg R_PC ≠ (0x3000 + 1) % 65536 := by
  decide

/-- C5, amended.  A BR word fetched at an address `a` other than the
keyboard-status address, with the condition-flag register holding `c`, leaves
the machine running with `PC = (a + 1 + signExtend(bits[8:0], 9)) mod 2^16`
when `bits[11:9] AND c` is nonzero and `PC = (a + 1) mod 2^16` otherwise.  In
particular a BR with the ZERO condition bit set branches when `c` is ZERO, and
a BR with the ZERO bit set and the POSITIVE bit clear only advances `PC` by one
when `c` is POSITIVE.  No other register and no memory cell changes. -/
theorem br_step (scanf : List Nat → Nat × List Nat) (s : VM) (a instr c : Nat)
    (ha : s.reg R_PC = a) (hk : a ≠ MR_KBSR) (hi : s.memory a = instr)
    (hop : instr >>> 12 = OP_BR) (hc : s.reg R_COND = c) :
    (step scanf s).status = Status.running ∧
    (bits instr 11 9 &&& c ≠ 0 →
      (step scanf s).vm.reg R_PC = (a + 1 + signExtend (bits instr 8 0) 9) % 65536) ∧
    (bits instr 11 9 &&& c = 0 → (step scanf s).vm.reg R_PC = (a + 1) % 65536) ∧
    (bits instr 10 10 = 1 → c = FL_ZRO →
      (step scanf s).vm.reg R_PC = (a + 1 + signExtend (bits instr 8 0) 9) % 65536) ∧
    (bits instr 10 10 = 1 → bits instr 9 9 = 0 → c = FL_POS →
      (step scanf s).vm.reg R_PC = (a + 1) % 65536) ∧
    (∀ r, r ≠ R_PC → (step scanf s).vm.reg r = s.reg r) ∧
    (step scanf s).vm.memory = s.memory := by
  subst ha; subst hi; subst hc
  rw [step_fetch scanf s hk]
  have hop2 : s.memory (s.reg 8) >>> 12 = 0 := hop
  simp only [exec, R_PC, R_COND, OP_ADD, OP_AND, OP_NOT, OP_BR, hop2, field_11_9, field_8_0]
  have hz : bits (s.memory (s.reg 8)) 10 10 = 1 → bits (s.memory (s.reg 8)) 11 9 &&& 2 ≠ 0 := by
    intro h
    have h1 : bits (s.memory (s.reg 8)) 11 9 / 2 % 2 = 1 := by
      unfold bits at h ⊢; omega
    have h2 : bits (s.memory (s.reg 8)) 11 9 < 8 := by
      unfold bits; omega
    generalize bits (s.memory (s.reg 8)) 11 9 = v at h1 h2
    interval_cases v <;> simp_all
  have hp : bits (s.memory (s.reg 8)) 10 10 = 1 → bits (s.memory (s.reg 8)) 9 9 = 0 →
      bits (s.memory (s.reg 8)) 11 9 &&& 1 = 0 := by
    intro _ h
    rw [Nat.and_one_is_mod]
    unfold bits at h ⊢; omega
  by_cases hb : bits (s.memory (s.reg 8)) 11 9 &&& s.reg 9 = 0
  · simp [hb, setReg]
    refine ⟨fun h1 h2 => ?_, fun r h1 h2 => absurd h2 h1⟩
    rw [h2] at hb
    exact absurd hb (hz h1)
  · have hb2 : 0 < bits (s.memory (s.reg 8)) 11 9 &&& s.reg 9 := Nat.pos_of_ne_zero hb
    simp [hb, hb2, setReg]
    refine ⟨fun h1 h2 h3 => ?_, fun r h1 => by simp [h1]⟩
    rw [h3] at hb
    exact absurd (hp h1 h2) hb
/-- C5, amended, at `BRz #5` fetched at `0x3000` with the flag ZERO: the branch
is taken, `PC = 0x3006`, and `R0` and the flag keep their values. -/
theorem br_step_witness :
    (step scanfHead brzVM).status = Status.running ∧
    (step scanfHead brzVM).vm.reg R_PC = 0x3006 ∧
    (step scanfHead brzVM).vm.reg R_R0 = brzVM.reg R_R0 ∧
    (step scanfHead brzVM).vm.reg R_COND = FL_ZRO :=
  have h := br_step scanfHead brzVM 0x3000 0x0405 FL_ZRO (by decide) (by decide) (by decide)
    (by decide) (by decide)
  ⟨h.1, h.2.2.2.1 (by decide) rfl, h.2.2.2.2.2.1 R_R0 (by decide),
    h.2.2.2.2.2.1 R_COND (by decide)⟩

/-! ## signExtend -/

theorem or_high_mask (y n : Nat) (hn : n ≤ 16) (hy : y < 2 ^ n) :
    y ||| ((0xFFFF <<< n) % 65536) = y + (65536 - 2 ^ n) := by
  have hK : (0xFFFF <<< n) % 65536 = 2 ^ n * (2 ^ (16 - n) - 1) := by
    interval_cases n <;> rfl
  rw [hK, Nat.or_comm, ← Nat.mul_add_lt_is_or hy]
  interval_cases n <;> omega

theorem signExtend_of_lt (y n : Nat) (h1 : 1 ≤ n) (hn : n ≤ 16) (hy : y < 2 ^ n) :
    signExtend y n = if 2 ^ (n - 1) ≤ y then y + (65536 - 2 ^ n) else y := by
  unfold signExtend
  rw [or_high_mask y n hn hy, Nat.shiftRight_eq_div_pow, Nat.and_one_is_mod]
  have : (y / 2 ^ (n - 1) % 2 > 0) ↔ 2 ^ (n - 1) ≤ y := by
    interval_cases n <;> simp at hy ⊢ <;> omega
  simp only [this]

theorem signExtend_signExtend (y n : Nat) :
    signExtend (signExtend y n) n = signExtend y n := by
  by_cases hc : (y >>> (n - 1)) &&& 1 > 0
  · have h : signExtend y n = y ||| ((0xFFFF <<< n) % 65536) := by
      unfold signExtend; rw [if_pos hc]
    rw [h]
    unfold signExtend
    split
    · rw [Nat.or_assoc, Nat.or_self]
    · rfl
  · have h : signExtend y n = y := by
      unfold signExtend; rw [if_neg hc]
    rw [h, h]

/-- C6.  For every `x` (in particular every 16-bit `x`) and every `bit_count`
from 1 to 16, with `y = x AND (2^bit_count - 1)`: a second `signExtend` at the
same `bit_count` changes nothing, and `signExtend(y, bit_count)` read as a
signed 16-bit number is `y` read as a signed `bit_count`-bit number. -/
theorem signExtend_masked (x bit_count : Nat) (h1 : 1 ≤ bit_count) (h16 : bit_count ≤ 16) :
    signExtend (signExtend (x &&& (2 ^ bit_count - 1)) bit_count) bit_count =
      signExtend (x &&& (2 ^ bit_count - 1)) bit_count ∧
    toSigned 16 (signExtend (x &&& (2 ^ bit_count - 1)) bit_count) =
      toSigned bit_count (x &&& (2 ^ bit_count - 1)) := by
  have hy : x &&& (2 ^ bit_count - 1) < 2 ^ bit_count := by
    rw [Nat.and_pow_two_sub_one_eq_mod]; exact Nat.mod_lt _ (by positivity)
  generalize x &&& (2 ^ bit_count - 1) = y at hy
  refine ⟨signExtend_signExtend y bit_count, ?_⟩
  rw [signExtend_of_lt y bit_count h1 h16 hy]
  unfold toSigned bits
  interval_cases bit_count <;> simp at hy ⊢ <;> split_ifs <;> omega

/-- C6 at `x = 0xABD5`, `bit_count = 5`: the field is `0x15`, its extension is
`0xFFF5`, extending again gives `0xFFF5`, and both read as `-11`. -/
theorem signExtend_masked_witness :
    0xABD5 &&& (2 ^ 5 - 1) = 0x15 ∧ signExtend 0x15 5 = 0xFFF5 ∧
    signExtend (signExtend (0xABD5 &&& (2 ^ 5 - 1)) 5) 5 =
      signExtend (0xABD5 &&& (2 ^ 5 - 1)) 5 ∧
    toSigned 16 (signExtend (0xABD5 &&& (2 ^ 5 - 1)) 5) = toSigned 5 (0xABD5 &&& (2 ^ 5 - 1)) ∧
    toSigned 5 0x15 = -11 :=
  have h := signExtend_masked 0xABD5 5 (by decide) (by decide)
  ⟨by decide, by decide, h.1, h.2, by decide⟩

/-! ## updateFlags -/

/-- C7.  For a register holding a 16-bit value `v`, `updateFlags` leaves the
condition-flag register equal to one of POSITIVE (1), ZERO (2), NEGATIVE (4):
ZERO exactly when `v = 0`, NEGATIVE exactly when `v ≠ 0` and bit 15 of `v` is
set, POSITIVE exactly when `v ≠ 0` and bit 15 is clear.  Every other register,
memory and both streams are unchanged.  (The index `r` need not be restricted
to `0..7` for this to hold.) -/
theorem updateFlags_spec (s : VM) (r v : Nat) (hv : s.reg r = v) (h16 : v < 65536) :
    ((updateFlags s r).reg R_COND = FL_POS ∨ (updateFlags s r).reg R_COND = FL_ZRO ∨
      (updateFlags s r).reg R_COND = FL_NEG) ∧
    ((updateFlags s r).reg R_COND = FL_ZRO ↔ v = 0) ∧
    ((updateFlags s r).reg R_COND = FL_NEG ↔ v ≠ 0 ∧ bits v 15 15 = 1) ∧
    ((updateFlags s r).reg R_COND = FL_POS ↔ v ≠ 0 ∧ bits v 15 15 = 0) ∧
    (∀ i, i ≠ R_COND → (updateFlags s r).reg i = s.reg i) ∧
    (updateFlags s r).memory = s.memory ∧
    (updateFlags s r).out = s.out ∧ (updateFlags s r).inp = s.inp := by
  subst hv
  unfold updateFlags
  rw [Nat.shiftRight_eq_div_pow]
  unfold bits
  simp only [R_COND, FL_ZRO, FL_NEG, FL_POS]
  by_cases h0 : s.reg r = 0
  · simp [h0, setReg]
    exact fun i hi hi2 => absurd hi2 hi
  · by_cases hn : 0 < s.reg r / 32768
    · simp [h0, hn, setReg]
      exact ⟨by omega, fun i hi hi2 => absurd hi2 hi⟩
    · simp [h0, hn, setReg]
      exact ⟨by omega, fun i hi hi2 => absurd hi2 hi⟩

/-- C7 at a machine whose `R3` holds `0x8001`: the flag becomes NEGATIVE, and
`R3` keeps its value. -/
theorem updateFlags_spec_witness :
    flagsVM.reg R_R3 = 0x8001 ∧ (updateFlags flagsVM R_R3).reg R_COND = FL_NEG ∧
    (updateFlags flagsVM R_R3).reg R_R3 = 0x8001 :=
  have h := updateFlags_spec flagsVM R_R3 0x8001 (by decide) (by decide)
  ⟨by decide, h.2.2.1.2 ⟨by decide, by decide⟩, (h.2.2.2.2.1 R_R3 (by decide)).trans (by decide)⟩

/-! ## End-to-end scenario 1 -/

theorem step_add_imm5 (scanf : List Nat → Nat × List Nat) (s : VM)
    (hpc : s.reg R_PC = 0x3000) (hm : s.memory 0x3000 = 0x1025) :
    step scanf s = ⟨Status.running,
      updateFlags (setReg (setReg s R_PC 0x3001) R_R0 ((s.reg R_R0 + 5) % 65536)) R_R0⟩ := by
  rw [step_fetch scanf s (by rw [hpc]; decide), hpc, hm]
  rfl

theorem step_halt (scanf : List Nat → Nat × List Nat) (s : VM)
    (hpc : s.reg R_PC = 0x3001) (hm : s.memory 0x3001 = 0xF025) :
    step scanf s = ⟨Status.halted,
      print (setReg (setReg s R_PC 0x3002) R_R7 0x3002) haltText⟩ := by
  rw [step_fetch scanf s (by rw [hpc]; decide), hpc, hm]
  rfl


theorem addHalt_main (scanf : List Nat → Nat × List Nat) (inp : List Nat) (n : Nat) :
    main scanf [some addHaltImage] inp n =
      run scanf n (boot (readImageLoop addHaltImage MEMORY_MAX 2 0x3000 (initVM inp))) := by
  have ho : beUint16 addHaltImage 0 = 0x3000 := by decide
  have h := main_single_image scanf 0x30 [0x00, 0x10, 0x25, 0xF0, 0x25] inp n
  rw [show (0x30 :: [0x00, 0x10, 0x25, 0xF0, 0x25] : List Nat) = addHaltImage from rfl,
    ho] at h
  exact h

theorem addHalt_cell0 (s : VM) :
    (readImageLoop addHaltImage MEMORY_MAX 2 0x3000 s).memory 0x3000 = 0x1025 := by
  have h := readImageLoop_written addHaltImage MEMORY_MAX 2 0x3000 s 0
    (by decide) (by decide) (by decide)
    (by intro j h1 h2 h3; simp only [MEMORY_MAX] at h3; omega)
  rw [show (0x3000 + 0) % 65536 = 0x3000 by decide,
    show beUint16 addHaltImage (2 + 2 * 0) = 0x1025 by decide] at h
  exact h

theorem addHalt_cell1 (s : VM) :
    (readImageLoop addHaltImage MEMORY_MAX 2 0x3000 s).memory 0x3001 = 0xF025 := by
  have h := readImageLoop_written addHaltImage MEMORY_MAX 2 0x3000 s 1
    (by decide) (by decide) (by decide)
    (by intro j h1 h2 h3; simp only [MEMORY_MAX] at h3; omega)
  rw [show (0x3000 + 1) % 65536 = 0x3001 by decide,
    show beUint16 addHaltImage (2 + 2 * 1) = 0xF025 by decide] at h
  exact h

theorem run_add_halt (scanf : List Nat → Nat × List Nat) (L : VM)
    (hreg : L.reg R_R0 = 0) (hout : L.out = [])
    (hm0 : L.memory 0x3000 = 0x1025) (hm1 : L.memory 0x3001 = 0xF025) :
    (run scanf 0 (boot L)).vm.reg R_PC = 0x3000 ∧
    (run scanf 0 (boot L)).vm.reg R_COND = FL_ZRO ∧
    (run scanf 0 (boot L)).vm.memory = L.memory ∧
    (run scanf 1 (boot L)).status = Status.running ∧
    (run scanf 2 (boot L)).status = Status.halted ∧
    (run scanf 2 (boot L)).vm.reg R_R0 = 5 ∧
    (run scanf 2 (boot L)).vm.out = [72, 65, 76, 84, 10] ∧
    (∀ k, run scanf (2 + k) (boot L) = run scanf 2 (boot L)) := by
  have hs1 := step_add_imm5 scanf (boot L) (by simp [boot, setReg]) hm0
  generalize hS1 : updateFlags (setReg (setReg (boot L) R_PC 0x3001) R_R0
    (((boot L).reg R_R0 + 5) % 65536)) R_R0 = s1 at hs1
  obtain ⟨fr, fm, fo, -⟩ := updateFlags_frame (setReg (setReg (boot L) R_PC 0x3001) R_R0
    (((boot L).reg R_R0 + 5) % 65536)) R_R0
  rw [hS1] at fr fm fo
  have h1pc : s1.reg R_PC = 0x3001 := by rw [fr R_PC (by decide)]; simp [setReg]
  have h1r0 : s1.reg R_R0 = 5 := by
    rw [fr R_R0 (by decide)]; simp [setReg, boot, hreg]
  have h1m : s1.memory 0x3001 = 0xF025 := by rw [fm]; exact hm1
  have h1o : s1.out = [] := by rw [fo]; simpa [setReg, boot] using hout
  have hs2 := step_halt scanf s1 h1pc h1m
  have hrun2 : ∀ k, run scanf (2 + k) (boot L) =
      ⟨Status.halted, print (setReg (setReg s1 R_PC 0x3002) R_R7 0x3002) haltText⟩ := by
    intro k
    rw [show 2 + k = (k + 1) + 1 by omega, run_succ_running scanf (k + 1) _ _ hs1]
    exact run_succ_stop scanf k s1 _ _ hs2 (by decide)
  have hrun1 : run scanf 1 (boot L) = ⟨Status.running, s1⟩ := by
    rw [run_succ_running scanf 0 _ _ hs1]; rfl
  refine ⟨rfl, rfl, rfl, ?_, ?_, ?_, ?_, ?_⟩
  · rw [hrun1]
  · rw [hrun2 0]
  · rw [hrun2 0]; simpa [print, setReg] using h1r0
  · rw [hrun2 0]; simp [print, setReg, h1o, haltText]
  · intro k; rw [hrun2 k, hrun2 0]

/-- C8.  From zero-initialised memory and registers, `main` on the image with
header word `0x3000` followed by `0x1025` and `0xF025` starts the loop with
`PC = 0x3000`, the condition flag ZERO and the two words at `0x3000` and
`0x3001`.  After one instruction the machine is still running; the second
instruction halts it, without a panic, with `R0 = 5` and the output exactly
the five characters `H`, `A`, `L`, `T`, newline (codes 72, 65, 76, 84, 10);
more fuel changes nothing. -/
theorem add_halt_image_runs (scanf : List Nat → Nat × List Nat) (inp : List Nat) :
    (main scanf [some addHaltImage] inp 0).vm.reg R_PC = 0x3000 ∧
    (main scanf [some addHaltImage] inp 0).vm.reg R_COND = FL_ZRO ∧
    (main scanf [some addHaltImage] inp 0).vm.memory 0x3000 = 0x1025 ∧
    (main scanf [some addHaltImage] inp 0).vm.memory 0x3001 = 0xF025 ∧
    (main scanf [some addHaltImage] inp 1).status = Status.running ∧
    (main scanf [some addHaltImage] inp 2).status = Status.halted ∧
    (main scanf [some addHaltImage] inp 2).vm.reg R_R0 = 5 ∧
    (main scanf [some addHaltImage] inp 2).vm.out = [72, 65, 76, 84, 10] ∧
    (∀ k, main scanf [some addHaltImage] inp (2 + k) = main scanf [some addHaltImage] inp 2) := by
  have hm0 := addHalt_cell0 (initVM inp)
  have hm1 := addHalt_cell1 (initVM inp)
  obtain ⟨hreg, hout, -⟩ := readImageLoop_frame addHaltImage MEMORY_MAX 2 0x3000 (initVM inp)
  have hr := run_add_halt scanf (readImageLoop addHaltImage MEMORY_MAX 2 0x3000 (initVM inp))
    (by rw [hreg]; rfl) (by rw [hout]; rfl) hm0 hm1
  simp only [addHalt_main]
  obtain ⟨h1, h2, h3, h4⟩ := hr
  refine ⟨h1, h2, ?_, ?_, h4⟩
  · rw [h3]; exact hm0
  · rw [h3]; exact hm1

/-! ## TRAP with an undefined vector -/

/-- C9 as stated fails at the TRAP word `0xF0FF` fetched at `0x3000`: its low
eight bits `0xFF` are none of `0x20..0x25`, yet the step leaves the machine
running, and the loop goes on to fetch and execute the `TRAP HALT` stored at
`0x3001`. -/
theorem trap_undefined_vector_is_fatal_fails :
    0xF0FF >>> 12 = OP_TRAP ∧ bits 0xF0FF 7 0 = 0xFF ∧
    trapVM.reg R_PC = 0x3000 ∧ trapVM.memory 0x3000 = 0xF0FF ∧
    (step scanfHead trapVM).status = Status.running ∧
    (run scanfHead 2 trapVM).status = Status.halted ∧
    (run scanfHead 2 trapVM).vm.out = haltText := by
  decide

/-- C9, amended.  A TRAP word whose low eight bits are none of `0x20..0x25`,
fetched at an address `a` other than the keyboard-status address, is not a
fatal stop: the machine remains running with `R7 = PC = (a + 1) mod 2^16`,
every other register, memory and both streams unchanged, and the loop goes on
with the next fetch. -/
theorem trap_undefined_vector (scanf : List Nat → Nat × List Nat) (s : VM) (a instr : Nat)
    (ha : s.reg R_PC = a) (hk : a ≠ MR_KBSR) (hi : s.memory a = instr)
    (hop : instr >>> 12 = OP_TRAP)
    (hv : bits instr 7 0 ≠ TRAP_GETC ∧ bits instr 7 0 ≠ TRAP_OUT ∧ bits instr 7 0 ≠ TRAP_PUTS ∧
      bits instr 7 0 ≠ TRAP_IN ∧ bits instr 7 0 ≠ TRAP_PUTSP ∧ bits instr 7 0 ≠ TRAP_HALT) :
    (step scanf s).status = Status.running ∧
    (step scanf s).vm.reg R_R7 = (a + 1) % 65536 ∧
    (step scanf s).vm.reg R_PC = (a + 1) % 65536 ∧
    (∀ r, r ≠ R_R7 → r ≠ R_PC → (step scanf s).vm.reg r = s.reg r) ∧
    (step scanf s).vm.memory = s.memory ∧
    (step scanf s).vm.out = s.out ∧ (step scanf s).vm.inp = s.inp ∧
    (∀ n, run scanf (n + 1) s = run scanf n (step scanf s).vm) := by
  subst ha; subst hi
  have hop2 : s.memory (s.reg 8) >>> 12 = 15 := hop
  obtain ⟨v0, v1, v2, v3, v4, v5⟩ := hv
  simp only [TRAP_GETC, TRAP_OUT, TRAP_PUTS, TRAP_IN, TRAP_PUTSP, TRAP_HALT] at v0 v1 v2 v3 v4 v5
  have hstep : step scanf s = ⟨Status.running,
      setReg (setReg s R_PC ((s.reg R_PC + 1) % 65536)) R_R7 ((s.reg R_PC + 1) % 65536)⟩ := by
    rw [step_fetch scanf s hk]
    simp only [exec, execTrap, R_PC, R_R7, OP_ADD, OP_AND, OP_NOT, OP_BR, OP_JMP, OP_JSR, OP_LD,
      OP_LDI, OP_LDR, OP_LEA, OP_ST, OP_STI, OP_STR, OP_TRAP, TRAP_GETC, TRAP_OUT, TRAP_PUTS,
      TRAP_IN, TRAP_PUTSP, TRAP_HALT, hop2, field_7_0]
    simp [v0, v1, v2, v3, v4, v5, setReg]
  refine ⟨by rw [hstep], by rw [hstep]; simp [setReg], by rw [hstep]; simp [setReg], ?_,
    by rw [hstep]; rfl, by rw [hstep]; rfl, by rw [hstep]; rfl, ?_⟩
  · intro r h7 h8
    rw [hstep]; simp [setReg, h7, h8]
  · intro n
    rw [run_succ_running scanf n s _ hstep, hstep]

/-- C9, amended, at the TRAP word `0xF0FF` fetched at `0x3000`: the machine
keeps running with `R7 = PC = 0x3001`. -/
theorem trap_undefined_vector_witness :
    (step scanfHead trapVM).status = Status.running ∧
    (step scanfHead trapVM).vm.reg R_R7 = 0x3001 ∧
    (step scanfHead trapVM).vm.reg R_PC = 0x3001 :=
  have h := trap_undefined_vector scanfHead trapVM 0x3000 0xF0FF (by decide) (by decide)
    (by decide) (by decide) (by decide)
  ⟨h.1, h.2.1, h.2.2.1⟩

/-! ## Reserved opcodes -/

/-- C10.  For a 16-bit instruction word fetched at `a`: when its top four bits
are RTI (8) or RES (13) and `a` is not the keyboard-status address, the step
ends with the panic `Bad Opcode`, no general register, no memory cell and no
output changed, and the loop executes nothing further; when its top four bits
are any of the other 14 opcodes the step never ends with that panic. -/
theorem reserved_opcode (scanf : List Nat → Nat × List Nat) (s : VM) (a instr : Nat)
    (ha : s.reg R_PC = a) (hi : s.memory a = instr) (h16 : instr < 65536) :
    ((instr >>> 12 = OP_RTI ∨ instr >>> 12 = OP_RES) → a ≠ MR_KBSR →
      (step scanf s).status = Status.fatal Fatal.badOpcode ∧
      (∀ r, r ≤ 7 → (step scanf s).vm.reg r = s.reg r) ∧
      (step scanf s).vm.memory = s.memory ∧
      (step scanf s).vm.out = s.out ∧
      (∀ n, run scanf (n + 1) s = step scanf s)) ∧
    (instr >>> 12 ≠ OP_RTI → instr >>> 12 ≠ OP_RES →
      (step scanf s).status ≠ Status.fatal Fatal.badOpcode) := by
  subst ha; subst hi
  constructor
  · intro hop hk
    have hstep : step scanf s = ⟨Status.fatal Fatal.badOpcode,
        setReg s R_PC ((s.reg R_PC + 1) % 65536)⟩ := by
      rw [step_fetch scanf s hk]
      simp only [OP_RTI, OP_RES, R_PC] at hop ⊢
      rcases hop with hop | hop <;>
        simp [exec, hop]
    refine ⟨by rw [hstep], ?_, by rw [hstep]; rfl, by rw [hstep]; rfl, ?_⟩
    · intro r hr
      rw [hstep]
      have : r ≠ 8 := by omega
      simp [setReg, this]
    · intro n
      rw [hstep]
      exact run_succ_stop scanf n s _ _ hstep (by decide)
  · intro h8 h13
    have hlt : s.memory (s.reg R_PC) >>> 12 < 16 := by
      rw [Nat.shiftRight_eq_div_pow]; omega
    unfold step
    rcases memRead_cases s (s.reg R_PC) with h | h <;> rw [h]
    · simp
    · exact exec_status scanf _ _ hlt h8 h13

/-- C10 at the RES word `0xD000` fetched at `0x3000`: the step ends with the
panic `Bad Opcode`, `R0` keeps its value 7, and more fuel executes nothing
further. -/
theorem reserved_opcode_witness :
    0xD000 >>> 12 = OP_RES ∧
    (step scanfHead resVM).status = Status.fatal Fatal.badOpcode ∧
    (step scanfHead resVM).vm.reg R_R0 = 7 ∧
    run scanfHead 5 resVM = step scanfHead resVM :=
  have h := (reserved_opcode scanfHead resVM 0x3000 0xD000 (by decide) (by decide)
    (by decide)).1 (Or.inr (by decide)) (by decide)
  ⟨by decide, h.1, (h.2.1 R_R0 (by decide)).trans (by decide), h.2.2.2.2 4⟩

/-! ## The opcode cases one by one -/

theorem exec_and (scanf : List Nat → Nat × List Nat) (instr : Nat) (s : VM)
    (hop : instr >>> 12 = OP_AND) :
    exec scanf instr s =
      if bits instr 5 5 > 0 then
        ⟨Status.running, updateFlags (setReg s (bits instr 11 9)
          (s.reg (bits instr 8 6) &&& signExtend (bits instr 4 0) 5)) (bits instr 11 9)⟩
      else
        ⟨Status.running, updateFlags (setReg s (bits instr 11 9)
          (s.reg (bits instr 8 6) &&& s.reg (bits instr 2 0))) (bits instr 11 9)⟩ := by
  have hop2 : instr >>> 12 = 5 := hop
  simp only [exec, OP_ADD, OP_AND, hop2, field_11_9, field_8_6, field_5, field_4_0]
  simp only [field_2_0]
  simp

theorem exec_not (scanf : List Nat → Nat × List Nat) (instr : Nat) (s : VM)
    (hop : instr >>> 12 = OP_NOT) :
    exec scanf instr s =
      ⟨Status.running, updateFlags (setReg s (bits instr 11 9)
        (s.reg (bits instr 8 6) ^^^ 0xFFFF)) (bits instr 11 9)⟩ := by
  have hop2 : instr >>> 12 = 9 := hop
  simp only [exec, OP_ADD, OP_AND, OP_NOT, hop2, field_11_9, field_8_6]
  simp

theorem exec_add (scanf : List Nat → Nat × List Nat) (instr : Nat) (s : VM)
    (hop : instr >>> 12 = OP_ADD) :
    exec scanf instr s =
      if bits instr 5 5 = 1 then
        ⟨Status.running, updateFlags (setReg s (bits instr 11 9)
          ((s.reg (bits instr 8 6) + signExtend (bits instr 4 0) 5) % 65536)) (bits instr 11 9)⟩
      else
        ⟨Status.running, updateFlags (setReg s (bits instr 11 9)
          ((s.reg (bits instr 8 6) + s.reg (instr &&& 0x5)) % 65536)) (bits instr 11 9)⟩ := by
  have hop2 : instr >>> 12 = 1 := hop
  simp only [exec, OP_ADD, hop2, field_11_9, field_8_6, field_5, field_4_0]
  simp

theorem exec_ld (scanf : List Nat → Nat × List Nat) (instr : Nat) (s : VM)
    (hop : instr >>> 12 = OP_LD ∨ instr >>> 12 = OP_LDI)
    (hk : (s.reg R_PC + signExtend (bits instr 8 0) 9) % 65536 ≠ MR_KBSR) :
    exec scanf instr s =
      ⟨Status.running, updateFlags (setReg s (bits instr 11 9)
        (s.memory ((s.reg R_PC + signExtend (bits instr 8 0) 9) % 65536))) (bits instr 11 9)⟩ := by
  simp only [OP_LD, OP_LDI] at hop
  rcases hop with hop2 | hop2 <;>
  · simp only [exec, OP_ADD, OP_AND, OP_NOT, OP_BR, OP_JMP, OP_JSR, OP_LD, OP_LDI, hop2,
      field_11_9, field_8_0]
    simp [memRead_ok s _ hk]

theorem exec_ldr (scanf : List Nat → Nat × List Nat) (instr : Nat) (s : VM)
    (hop : instr >>> 12 = OP_LDR)
    (hk : (s.reg (bits instr 8 6) + signExtend (bits instr 5 0) 6) % 65536 ≠ MR_KBSR) :
    exec scanf instr s =
      ⟨Status.running, updateFlags (setReg s (bits instr 11 9)
        (s.memory ((s.reg (bits instr 8 6) + signExtend (bits instr 5 0) 6) % 65536)))
        (bits instr 11 9)⟩ := by
  have hop2 : instr >>> 12 = 6 := hop
  simp only [exec, OP_ADD, OP_AND, OP_NOT, OP_BR, OP_JMP, OP_JSR, OP_LD, OP_LDI, OP_LDR, hop2,
    field_11_9, field_8_6, field_5_0]
  simp [memRead_ok s _ hk]

theorem exec_lea (scanf : List Nat → Nat × List Nat) (instr : Nat) (s : VM)
    (hop : instr >>> 12 = OP_LEA) :
    exec scanf instr s =
      ⟨Status.running, updateFlags (setReg s (bits instr 11 9)
        ((s.reg R_PC + signExtend (bits instr 8 0) 9) % 65536)) (bits instr 11 9)⟩ := by
  have hop2 : instr >>> 12 = 14 := hop
  simp only [exec, OP_ADD, OP_AND, OP_NOT, OP_BR, OP_JMP, OP_JSR, OP_LD, OP_LDI, OP_LDR, OP_LEA,
    hop2, field_11_9, field_8_0]
  simp

theorem exec_st (scanf : List Nat → Nat × List Nat) (instr : Nat) (s : VM)
    (hop : instr >>> 12 = OP_ST) :
    exec scanf instr s =
      ⟨Status.running, memWrite s ((s.reg R_PC + signExtend (bits instr 8 0) 9) % 65536)
        (s.reg (bits instr 11 9))⟩ := by
  have hop2 : instr >>> 12 = 3 := hop
  simp only [exec, OP_ADD, OP_AND, OP_NOT, OP_BR, OP_JMP, OP_JSR, OP_LD, OP_LDI, OP_LDR, OP_LEA,
    OP_ST, hop2, field_11_9, field_8_0]
  simp

theorem exec_sti (scanf : List Nat → Nat × List Nat) (instr : Nat) (s : VM)
    (hop : instr >>> 12 = OP_STI)
    (hk : (s.reg R_PC + signExtend (bits instr 8 0) 9) % 65536 ≠ MR_KBSR) :
    exec scanf instr s =
      ⟨Status.running,
        memWrite s (s.memory ((s.reg R_PC + signExtend (bits instr 8 0) 9) % 65536))
          (s.reg (bits instr 11 9))⟩ := by
  have hop2 : instr >>> 12 = 11 := hop
  simp only [exec, OP_ADD, OP_AND, OP_NOT, OP_BR, OP_JMP, OP_JSR, OP_LD, OP_LDI, OP_LDR, OP_LEA,
    OP_ST, OP_STI, hop2, field_11_9, field_8_0]
  simp [memRead_ok s _ hk]

theorem exec_str (scanf : List Nat → Nat × List Nat) (instr : Nat) (s : VM)
    (hop : instr >>> 12 = OP_STR) :
    exec scanf instr s =
      ⟨Status.running,
        memWrite s ((s.reg (bits instr 8 6) + signExtend (bits instr 5 0) 6) % 65536)
          (s.reg (bits instr 11 9))⟩ := by
  have hop2 : instr >>> 12 = 7 := hop
  simp only [exec, OP_ADD, OP_AND, OP_NOT, OP_BR, OP_JMP, OP_JSR, OP_LD, OP_LDI, OP_LDR, OP_LEA,
    OP_ST, OP_STI, OP_STR, hop2, field_11_9, field_8_6, field_5_0]
  simp

theorem exec_br (scanf : List Nat → Nat × List Nat) (instr : Nat) (s : VM)
    (hop : instr >>> 12 = OP_BR) :
    exec scanf instr s =
      if (bits instr 11 9 &&& s.reg R_COND) > 0 then
        ⟨Status.running, setReg s R_PC ((s.reg R_PC + signExtend (bits instr 8 0) 9) % 65536)⟩
      else
        ⟨Status.running, s⟩ := by
  have hop2 : instr >>> 12 = 0 := hop
  simp only [exec, OP_ADD, OP_AND, OP_NOT, OP_BR, hop2, field_11_9, field_8_0]
  simp

theorem exec_jmp (scanf : List Nat → Nat × List Nat) (instr : Nat) (s : VM)
    (hop : instr >>> 12 = OP_JMP) :
    exec scanf instr s = ⟨Status.running, setReg s R_PC (bits instr 8 6)⟩ := by
  have hop2 : instr >>> 12 = 12 := hop
  simp only [exec, OP_ADD, OP_AND, OP_NOT, OP_BR, OP_JMP, hop2, field_8_6]
  simp

theorem exec_jsr (scanf : List Nat → Nat × List Nat) (instr : Nat) (s : VM)
    (hop : instr >>> 12 = OP_JSR) :
    exec scanf instr s =
      if bits instr 11 11 > 0 then
        ⟨Status.running, setReg (setReg s R_R7 (s.reg R_PC)) R_PC
          (((setReg s R_R7 (s.reg R_PC)).reg R_PC + signExtend (bits instr 10 0) 11) % 65536)⟩
      else
        ⟨Status.running, setReg (setReg s R_R7 (s.reg R_PC)) R_PC
          ((setReg s R_R7 (s.reg R_PC)).reg (bits instr 8 6))⟩ := by
  have hop2 : instr >>> 12 = 4 := hop
  simp only [exec, OP_ADD, OP_AND, OP_NOT, OP_BR, OP_JMP, OP_JSR, hop2, field_11, field_8_6,
    field_10_0]
  simp

theorem exec_trap (scanf : List Nat → Nat × List Nat) (instr : Nat) (s : VM)
    (hop : instr >>> 12 = OP_TRAP) :
    exec scanf instr s = execTrap scanf instr (setReg s R_R7 (s.reg R_PC)) := by
  have hop2 : instr >>> 12 = 15 := hop
  simp only [exec, OP_ADD, OP_AND, OP_NOT, OP_BR, OP_JMP, OP_JSR, OP_LD, OP_LDI, OP_LDR, OP_LEA,
    OP_ST, OP_STI, OP_STR, OP_TRAP, hop2]
  simp

/-! ## Registers and flags after an instruction that sets a register -/

theorem bits_lt_8 (w lo : Nat) : bits w (lo + 2) lo < 8 := by
  unfold bits
  have : lo + 2 + 1 - lo = 3 := by omega
  rw [this]
  exact Nat.mod_lt _ (by decide)

theorem updateFlags_cond (s : VM) (r : Nat) (h : s.reg r < 65536) :
    (updateFlags s r).reg R_COND = flagOf (s.reg r) := by
  unfold updateFlags flagOf
  rw [Nat.shiftRight_eq_div_pow]
  unfold bits
  simp only [R_COND, FL_ZRO, FL_NEG, FL_POS]
  by_cases h0 : s.reg r = 0
  · simp [h0, setReg]
  · by_cases hn : 0 < s.reg r / 32768
    · have : s.reg r / 32768 % 2 = 1 := by omega
      simp [h0, hn, setReg, this]
    · have : ¬ (s.reg r / 32768 % 2 = 1) := by omega
      simp [h0, hn, setReg, this]

theorem flagOf_cases (v : Nat) : flagOf v = FL_POS ∨ flagOf v = FL_ZRO ∨ flagOf v = FL_NEG := by
  unfold flagOf
  split
  · right; left; rfl
  · split
    · right; right; rfl
    · left; rfl

theorem setter_effect (s : VM) (pc r0 v : Nat) (h0 : r0 < 8) :
    (updateFlags (setReg (setReg s R_PC pc) r0 v) r0).reg r0 = v ∧
    (updateFlags (setReg (setReg s R_PC pc) r0 v) r0).reg R_PC = pc ∧
    (∀ r, r ≤ 7 → r ≠ r0 → (updateFlags (setReg (setReg s R_PC pc) r0 v) r0).reg r = s.reg r) ∧
    (updateFlags (setReg (setReg s R_PC pc) r0 v) r0).memory = s.memory ∧
    (updateFlags (setReg (setReg s R_PC pc) r0 v) r0).out = s.out ∧
    (updateFlags (setReg (setReg s R_PC pc) r0 v) r0).inp = s.inp ∧
    (v < 65536 → (updateFlags (setReg (setReg s R_PC pc) r0 v) r0).reg R_COND = flagOf v) := by
  obtain ⟨fr, fm, fo, fi⟩ := updateFlags_frame (setReg (setReg s R_PC pc) r0 v) r0
  have e8 : r0 ≠ 8 := by omega
  refine ⟨?_, ?_, ?_, by rw [fm]; rfl, by rw [fo]; rfl, by rw [fi]; rfl, ?_⟩
  · rw [fr r0 (by simp only [R_COND]; omega)]; simp [setReg]
  · rw [fr R_PC (by decide)]; simp [setReg, Ne.symm e8]
  · intro r hr hne
    rw [fr r (by simp only [R_COND]; omega)]
    have : r ≠ 8 := by omega
    simp [setReg, hne, this]
  · intro hv
    have hx : (setReg (setReg s R_PC pc) r0 v).reg r0 = v := by simp [setReg]
    rw [updateFlags_cond _ _ (by rw [hx]; exact hv), hx]

theorem setReg_pc_reg (s : VM) (pc r : Nat) (h : r < 8) : (setReg s R_PC pc).reg r = s.reg r := by
  have : r ≠ 8 := by omega
  simp [setReg, this]

theorem setter_flags (s : VM) (pc r0 v : Nat) (h0 : r0 < 8) (hv : v < 65536) :
    FlagsSet ⟨Status.running, updateFlags (setReg (setReg s R_PC pc) r0 v) r0⟩ r0 := by
  obtain ⟨e1, -, -, -, -, -, e7⟩ := setter_effect s pc r0 v h0
  refine ⟨rfl, ?_, ?_⟩
  · show (updateFlags (setReg (setReg s R_PC pc) r0 v) r0).reg R_COND =
      flagOf ((updateFlags (setReg (setReg s R_PC pc) r0 v) r0).reg r0)
    rw [e1]; exact e7 hv
  · show (updateFlags (setReg (setReg s R_PC pc) r0 v) r0).reg R_COND = FL_POS ∨
      (updateFlags (setReg (setReg s R_PC pc) r0 v) r0).reg R_COND = FL_ZRO ∨
      (updateFlags (setReg (setReg s R_PC pc) r0 v) r0).reg R_COND = FL_NEG
    rw [e7 hv]; exact flagOf_cases v

theorem lookup_getD_lt (l : List (Nat × Nat)) (h : ∀ p ∈ l, p.2 < 65536) (k : Nat) :
    (l.lookup k).getD 0 < 65536 := by
  induction l with
  | nil => simp [List.lookup]
  | cons p l ih =>
    obtain ⟨x, y⟩ := p
    unfold List.lookup
    split
    · exact h (x, y) (List.mem_cons_self _ _)
    · exact ih (fun q hq => h q (List.mem_cons_of_mem _ hq))

theorem memWrite_effect (s : VM) (pc addr val : Nat) (a : Nat) (hpc : pc = (a + 1) % 65536) :
    StoreEffect s a ⟨Status.running, memWrite (setReg s R_PC pc) addr val⟩ addr val := by
  subst hpc
  refine ⟨rfl, by simp [memWrite], ?_, ?_, by simp [memWrite, setReg]⟩
  · intro x hx; simp [memWrite, setReg, hx]
  · intro r hr
    have : r ≠ 8 := hr
    simp [memWrite, setReg, this]

/-! ## The string-output loops -/

theorem cellsFrom_succ (memory : Nat → Nat) (start n : Nat) :
    cellsFrom memory start (n + 1) =
      memory (start % 65536) :: cellsFrom memory ((start + 1) % 65536) n := by
  unfold cellsFrom
  rw [List.range_succ_eq_map, List.map_cons, List.map_map]
  congr 1
  apply List.map_congr_left
  intro k _
  simp only [Function.comp, Nat.add_zero]
  congr 1
  omega

theorem putsLoop_spec (memory : Nat → Nat) :
    ∀ (n fuel index : Nat) (out : List Nat), n < fuel → index < 65536 →
      (∀ k, k < n → memory ((index + k) % 65536) ≠ 0) →
      memory ((index + n) % 65536) = 0 →
      putsLoop memory fuel index out =
        some (out ++ (cellsFrom memory index n).map runeOf) := by
  intro n
  induction n with
  | zero =>
    intro fuel index out hf hi _ hz
    obtain ⟨f, rfl⟩ : ∃ f, fuel = f + 1 := ⟨fuel - 1, by omega⟩
    rw [Nat.add_zero, Nat.mod_eq_of_lt hi] at hz
    simp [putsLoop, hz, cellsFrom]
  | succ n ih =>
    intro fuel index out hf hi hnz hz
    obtain ⟨f, rfl⟩ : ∃ f, fuel = f + 1 := ⟨fuel - 1, by omega⟩
    have h0 : memory index ≠ 0 := by
      have := hnz 0 (by omega)
      rwa [Nat.add_zero, Nat.mod_eq_of_lt hi] at this
    have hpos : memory index > 0 := Nat.pos_of_ne_zero h0
    unfold putsLoop
    simp only [hpos, if_true]
    rw [ih f ((index + 1) % 65536) _ (by omega) (Nat.mod_lt _ (by decide))
      (fun k hk => by
        have := hnz (k + 1) (by omega)
        intro e; apply this; rw [← e]; congr 1; omega)
      (by rw [← hz]; congr 1; omega)]
    rw [cellsFrom_succ, Nat.mod_eq_of_lt hi]
    simp

theorem putspLoop_spec (memory : Nat → Nat) :
    ∀ (n fuel index : Nat) (out : List Nat), n < fuel → index < 65536 →
      (∀ k, k < n → memory ((index + k) % 65536) ≠ 0) →
      memory ((index + n) % 65536) = 0 →
      putspLoop memory fuel index out =
        some (out ++ (cellsFrom memory index n).flatMap
          (fun c => [runeOf (c &&& 0xFF), runeOf (c >>> 8)])) := by
  intro n
  induction n with
  | zero =>
    intro fuel index out hf hi _ hz
    obtain ⟨f, rfl⟩ : ∃ f, fuel = f + 1 := ⟨fuel - 1, by omega⟩
    rw [Nat.add_zero, Nat.mod_eq_of_lt hi] at hz
    simp [putspLoop, hz, cellsFrom]
  | succ n ih =>
    intro fuel index out hf hi hnz hz
    obtain ⟨f, rfl⟩ : ∃ f, fuel = f + 1 := ⟨fuel - 1, by omega⟩
    have h0 : memory index ≠ 0 := by
      have := hnz 0 (by omega)
      rwa [Nat.add_zero, Nat.mod_eq_of_lt hi] at this
    have hpos : memory index > 0 := Nat.pos_of_ne_zero h0
    unfold putspLoop
    simp only [hpos, if_true]
    rw [ih f ((index + 1) % 65536) _ (by omega) (Nat.mod_lt _ (by decide))
      (fun k hk => by
        have := hnz (k + 1) (by omega)
        intro e; apply this; rw [← e]; congr 1; omega)
      (by rw [← hz]; congr 1; omega)]
    rw [cellsFrom_succ, Nat.mod_eq_of_lt hi]
    simp

theorem first_zero_cell (memory : Nat → Nat) (start z : Nat) (hs : start < 65536)
    (hz16 : z < 65536) (hz : memory z = 0) :
    ∃ n, n < 65536 ∧ memory ((start + n) % 65536) = 0 ∧
      ∀ k, k < n → memory ((start + k) % 65536) ≠ 0 := by
  have hex : ∃ d, memory ((start + d) % 65536) = 0 := by
    refine ⟨(z + 65536 - start) % 65536, ?_⟩
    have : (start + (z + 65536 - start) % 65536) % 65536 = z := by omega
    rw [this]; exact hz
  have hd : memory ((start + (z + 65536 - start) % 65536) % 65536) = 0 := by
    have : (start + (z + 65536 - start) % 65536) % 65536 = z := by omega
    rw [this]; exact hz
  refine ⟨Nat.find hex, ?_, Nat.find_spec hex, fun k hk => Nat.find_min hex hk⟩
  have := Nat.find_min' hex hd
  have : (z + 65536 - start) % 65536 < 65536 := Nat.mod_lt _ (by decide)
  omega

theorem execTrap_puts (scanf : List Nat → Nat × List Nat) (instr : Nat) (s : VM)
    (hv : bits instr 7 0 = TRAP_PUTS) :
    execTrap scanf instr s =
      match putsLoop s.memory MEMORY_MAX (s.reg R_R0) s.out with
      | some o => ⟨Status.running, { s with out := o }⟩
      | none => ⟨Status.diverged, s⟩ := by
  have hv2 : bits instr 7 0 = 0x22 := hv
  simp only [execTrap, field_7_0, hv2, TRAP_GETC, TRAP_OUT, TRAP_PUTS]
  simp

theorem execTrap_putsp (scanf : List Nat → Nat × List Nat) (instr : Nat) (s : VM)
    (hv : bits instr 7 0 = TRAP_PUTSP) :
    execTrap scanf instr s =
      match putspLoop s.memory MEMORY_MAX (s.reg R_R0) s.out with
      | some o => ⟨Status.running, { s with out := o }⟩
      | none => ⟨Status.diverged, s⟩ := by
  have hv2 : bits instr 7 0 = 0x24 := hv
  simp only [execTrap, field_7_0, hv2, TRAP_GETC, TRAP_OUT, TRAP_PUTS, TRAP_IN, TRAP_PUTSP]
  simp

theorem runeOf_of_not_surrogate (c : Nat) (h : c < 0xD800 ∨ 0xDFFF < c) : runeOf c = c := by
  unfold runeOf
  rw [if_neg]
  omega

theorem trap_frame (s : VM) (pc : Nat) (o : List Nat) :
    ({ setReg (setReg s R_PC pc) R_R7 pc with out := o } : VM).memory = s.memory ∧
    (∀ r, r ≤ 6 → ({ setReg (setReg s R_PC pc) R_R7 pc with out := o } : VM).reg r = s.reg r) ∧
    ({ setReg (setReg s R_PC pc) R_R7 pc with out := o } : VM).reg R_R7 = pc ∧
    ({ setReg (setReg s R_PC pc) R_R7 pc with out := o } : VM).reg R_PC = pc ∧
    ({ setReg (setReg s R_PC pc) R_R7 pc with out := o } : VM).out = o := by
  refine ⟨rfl, ?_, by simp [setReg], by simp [setReg], rfl⟩
  intro r hr
  have h7 : r ≠ 7 := by omega
  have h8 : r ≠ 8 := by omega
  simp [setReg, h7, h8]

theorem step_puts (scanf : List Nat → Nat × List Nat) (s : VM) (n : Nat)
    (hk : s.reg R_PC ≠ MR_KBSR) (hop : s.memory (s.reg R_PC) >>> 12 = OP_TRAP)
    (hv : bits (s.memory (s.reg R_PC)) 7 0 = TRAP_PUTS) (hr0 : s.reg R_R0 < 65536)
    (hn : n < 65536) (hz : s.memory ((s.reg R_R0 + n) % 65536) = 0)
    (hnz : ∀ k, k < n → s.memory ((s.reg R_R0 + k) % 65536) ≠ 0) :
    step scanf s = ⟨Status.running,
      { setReg (setReg s R_PC ((s.reg R_PC + 1) % 65536)) R_R7 ((s.reg R_PC + 1) % 65536) with
        out := s.out ++ (cellsFrom s.memory (s.reg R_R0) n).map runeOf }⟩ := by
  rw [step_fetch scanf s hk, exec_trap scanf _ _ hop, execTrap_puts scanf _ _ hv]
  have hl := putsLoop_spec s.memory n MEMORY_MAX (s.reg R_R0) s.out hn hr0 hnz hz
  have e1 : (setReg (setReg s R_PC ((s.reg R_PC + 1) % 65536)) R_R7
      ((setReg s R_PC ((s.reg R_PC + 1) % 65536)).reg R_PC)).memory = s.memory := rfl
  have e2 : (setReg (setReg s R_PC ((s.reg R_PC + 1) % 65536)) R_R7
      ((setReg s R_PC ((s.reg R_PC + 1) % 65536)).reg R_PC)).reg R_R0 = s.reg R_R0 := by
    simp [setReg]
  have e3 : (setReg (setReg s R_PC ((s.reg R_PC + 1) % 65536)) R_R7
      ((setReg s R_PC ((s.reg R_PC + 1) % 65536)).reg R_PC)).out = s.out := rfl
  have e4 : (setReg s R_PC ((s.reg R_PC + 1) % 65536)).reg R_PC = (s.reg R_PC + 1) % 65536 := by
    simp [setReg]
  rw [e1, e2, e3, hl, e4]
  rfl

theorem step_putsp (scanf : List Nat → Nat × List Nat) (s : VM) (n : Nat)
    (hk : s.reg R_PC ≠ MR_KBSR) (hop : s.memory (s.reg R_PC) >>> 12 = OP_TRAP)
    (hv : bits (s.memory (s.reg R_PC)) 7 0 = TRAP_PUTSP) (hr0 : s.reg R_R0 < 65536)
    (hn : n < 65536) (hz : s.memory ((s.reg R_R0 + n) % 65536) = 0)
    (hnz : ∀ k, k < n → s.memory ((s.reg R_R0 + k) % 65536) ≠ 0) :
    step scanf s = ⟨Status.running,
      { setReg (setReg s R_PC ((s.reg R_PC + 1) % 65536)) R_R7 ((s.reg R_PC + 1) % 65536) with
        out := s.out ++ (cellsFrom s.memory (s.reg R_R0) n).flatMap
          (fun c => [runeOf (c &&& 0xFF), runeOf (c >>> 8)]) }⟩ := by
  rw [step_fetch scanf s hk, exec_trap scanf _ _ hop, execTrap_putsp scanf _ _ hv]
  have hl := putspLoop_spec s.memory n MEMORY_MAX (s.reg R_R0) s.out hn hr0 hnz hz
  have e1 : (setReg (setReg s R_PC ((s.reg R_PC + 1) % 65536)) R_R7
      ((setReg s R_PC ((s.reg R_PC + 1) % 65536)).reg R_PC)).memory = s.memory := rfl
  have e2 : (setReg (setReg s R_PC ((s.reg R_PC + 1) % 65536)) R_R7
      ((setReg s R_PC ((s.reg R_PC + 1) % 65536)).reg R_PC)).reg R_R0 = s.reg R_R0 := by
    simp [setReg]
  have e3 : (setReg (setReg s R_PC ((s.reg R_PC + 1) % 65536)) R_R7
      ((setReg s R_PC ((s.reg R_PC + 1) % 65536)).reg R_PC)).out = s.out := rfl
  have e4 : (setReg s R_PC ((s.reg R_PC + 1) % 65536)).reg R_PC = (s.reg R_PC + 1) % 65536 := by
    simp [setReg]
  rw [e1, e2, e3, hl, e4]
  rfl

theorem putsp_chars (cells : List Nat) (h : ∀ c ∈ cells, c < 65536) :
    cells.flatMap (fun c => [runeOf (c &&& 0xFF), runeOf (c >>> 8)]) = packedBytes cells := by
  unfold packedBytes
  induction cells with
  | nil => rfl
  | cons c cs ih =>
    have hc : c < 65536 := h c (List.mem_cons_self _ _)
    have hlo : runeOf (c &&& 0xFF) = bits c 7 0 := by
      rw [field_7_0]
      apply runeOf_of_not_surrogate
      left; unfold bits; omega
    have hhi : runeOf (c >>> 8) = bits c 15 8 := by
      have e : c >>> 8 = bits c 15 8 := by
        rw [Nat.shiftRight_eq_div_pow]; unfold bits; omega
      rw [e]
      apply runeOf_of_not_surrogate
      left; unfold bits; omega
    rw [List.flatMap_cons, List.flatMap_cons, hlo, hhi,
      ih (fun x hx => h x (List.mem_cons_of_mem _ hx))]

theorem cellsFrom_lt (memory : Nat → Nat) (start n : Nat) (h : ∀ x, memory x < 65536) :
    ∀ c ∈ cellsFrom memory start n, c < 65536 := by
  intro c hc
  unfold cellsFrom at hc
  obtain ⟨k, -, rfl⟩ := List.mem_map.mp hc
  exact h _

/-! ## The start of `main` -/

theorem readImages_ok (args : List (Option (List Nat)))
    (hall : ∀ f ∈ args, ∃ b bs, f = some (b :: bs)) :
    ∀ s : VM, ∃ s1, readImages args s = Except.ok s1 ∧ s1.reg = s.reg ∧ s1.out = s.out ∧
      s1.inp = s.inp := by
  induction args with
  | nil => intro s; exact ⟨s, rfl, rfl, rfl, rfl⟩
  | cons f fs ih =>
    intro s
    obtain ⟨b, bs, rfl⟩ := hall f (List.mem_cons_self _ _)
    obtain ⟨s1, h1, h2, h3, h4⟩ :=
      ih (fun g hg => hall g (List.mem_cons_of_mem _ hg))
        (readImageLoop (b :: bs) MEMORY_MAX 2 (beUint16 (b :: bs) 0) s)
    obtain ⟨f1, f2, f3⟩ := readImageLoop_frame (b :: bs) MEMORY_MAX 2 (beUint16 (b :: bs) 0) s
    refine ⟨s1, ?_, h2.trans f1, h3.trans f2, h4.trans f3⟩
    simp only [readImages, readImage]
    exact h1

theorem main_before_first_fetch (scanf : List Nat → Nat × List Nat)
    (args : List (Option (List Nat))) (inp : List Nat) (hne : args ≠ [])
    (hall : ∀ f ∈ args, ∃ b bs, f = some (b :: bs)) :
    ∃ s1, main scanf args inp 0 = ⟨Status.running, boot s1⟩ := by
  obtain ⟨s1, h1, -⟩ := readImages_ok args hall (initVM inp)
  refine ⟨s1, ?_⟩
  have hlen : ¬ (args.length + 1 < 2) := by
    cases args with
    | nil => exact absurd rfl hne
    | cons f fs => simp
  unfold main
  rw [if_neg hlen, h1]
  rfl

theorem main_two_images (scanf : List Nat → Nat × List Nat) (b c : Nat) (bs cs inp : List Nat)
    (fuel : Nat) :
    main scanf [some (b :: bs), some (c :: cs)] inp fuel =
      run scanf fuel
        (boot (readImageLoop (c :: cs) MEMORY_MAX 2 (beUint16 (c :: cs) 0)
          (readImageLoop (b :: bs) MEMORY_MAX 2 (beUint16 (b :: bs) 0) (initVM inp)))) := by
  simp [main, readImages, readImage]

theorem run_zero_boot_memory (scanf : List Nat → Nat × List Nat) (s : VM) :
    (run scanf 0 (boot s)).vm.memory = s.memory := rfl

/-! ## Reading the keyboard-status address -/

/-- C11 (the code at the failing input).  `checkKey` panics before it returns,
so a read of the keyboard-status address `0xFE00` raises the panic `hello?`
instead of returning 0, also with no key pending: `memRead` on that address
fails, and the step of `LDR R0, R1, #0` with `R1 = 0xFE00` is a fatal stop. -/
theorem memRead_keyboard_status_panics :
    kbVM.inp = [] ∧
    memRead kbVM MR_KBSR = Except.error (Fatal.hello, kbVM) ∧
    0x6040 >>> 12 = OP_LDR ∧
    (kbVM.reg (bits 0x6040 8 6) + signExtend (bits 0x6040 5 0) 6) % 65536 = MR_KBSR ∧
    (step scanfHead kbVM).status = Status.fatal Fatal.hello :=
  ⟨rfl, rfl, by decide, by decide, by decide⟩

/-! ## TRAP PUTSP -/

/-- C12 as stated fails at `TRAP PUTSP` with `R0 = 0x4000` and the cells
`0x4100`, `0x4242`, `0` from `0x4000` on: the low byte of the first cell is
zero, so the claim has the output end there with nothing written, yet the loop
tests the whole cell and goes on: the output is the characters with codes
`0, 0x41, 0x42, 0x42`. -/
theorem putsp_zero_low_byte_does_not_end_output :
    0xF024 >>> 12 = OP_TRAP ∧ bits 0xF024 7 0 = TRAP_PUTSP ∧
    putspVM.reg R_R0 = 0x4000 ∧ putspVM.memory 0x4000 = 0x4100 ∧
    bits 0x4100 7 0 = 0 ∧ putspVM.memory 0x4001 = 0x4242 ∧ putspVM.memory 0x4002 = 0 ∧
    (step scanfHead putspVM).status = Status.running ∧
    (step scanfHead putspVM).vm.out = [0, 0x41, 0x42, 0x42] ∧
    (step scanfHead putspVM).vm.out ≠ [] := by
  decide

/-- C12, amended.  On a machine whose cells hold 16-bit values and whose
memory has a zero cell, a `TRAP PUTSP` word fetched at an address other than
the keyboard-status address terminates: there is a first cell whose value is
zero, at some offset `n` from `R0` (addresses mod `2^16`), the machine keeps
running, and the output grows by characters taken from the `n` cells before
it, in address order, the low byte of each cell before its high byte.  It is
that zero cell that ends the output, not a zero byte inside a nonzero cell: the
nonzero characters written are exactly the nonzero bytes of those cells, and
when none of their bytes is zero these are all the characters written. -/
theorem putsp_step (scanf : List Nat → Nat × List Nat) (s : VM) (a instr z : Nat)
    (ha : s.reg R_PC = a) (hk : a ≠ MR_KBSR) (hi : s.memory a = instr)
    (hop : instr >>> 12 = OP_TRAP) (hv : bits instr 7 0 = TRAP_PUTSP)
    (hr0 : s.reg R_R0 < 65536) (hmem : ∀ x, s.memory x < 65536)
    (hz16 : z < 65536) (hz : s.memory z = 0) :
    ∃ n written, n < 65536 ∧ s.memory ((s.reg R_R0 + n) % 65536) = 0 ∧
      (∀ k, k < n → s.memory ((s.reg R_R0 + k) % 65536) ≠ 0) ∧
      (step scanf s).status = Status.running ∧
      (step scanf s).vm.out = s.out ++ written ∧
      written.filter (fun b => b != 0) =
        (packedBytes (cellsFrom s.memory (s.reg R_R0) n)).filter (fun b => b != 0) ∧
      ((∀ c ∈ cellsFrom s.memory (s.reg R_R0) n, bits c 7 0 ≠ 0 ∧ bits c 15 8 ≠ 0) →
        written = packedBytes (cellsFrom s.memory (s.reg R_R0) n)) := by
  subst ha; subst hi
  obtain ⟨n, hn, hzn, hnz⟩ := first_zero_cell s.memory (s.reg R_R0) z hr0 hz16 hz
  have hs := step_putsp scanf s n hk hop hv hr0 hn hzn hnz
  rw [putsp_chars _ (cellsFrom_lt s.memory (s.reg R_R0) n hmem)] at hs
  refine ⟨n, packedBytes (cellsFrom s.memory (s.reg R_R0) n), hn, hzn, hnz, ?_⟩
  rw [hs]
  exact ⟨rfl, rfl, rfl, fun _ => rfl⟩

/-- C12, amended, at `TRAP PUTSP` with `R0 = 0x4000` and the cells `0x6948`,
`0x2121`, `0` from `0x4000` on: the output is the four characters `Hi!!`. -/
theorem putsp_step_witness :
    (step scanfHead putspTextVM).status = Status.running ∧
    (step scanfHead putspTextVM).vm.out = [0x48, 0x69, 0x21, 0x21] := by
  obtain ⟨n, written, -, hz, hnz, h1, h2, -, h4⟩ :=
    putsp_step scanfHead putspTextVM 0x3000 0xF024 0x4002 (by decide) (by decide) (by decide)
      (by decide) (by decide) (by decide) (fun x => lookup_getD_lt _ (by decide) x)
      (by decide) (by decide)
  have hn2 : n = 2 := by
    rcases Nat.lt_trichotomy n 2 with h | h | h
    · interval_cases n
      · exact absurd hz (by decide)
      · exact absurd hz (by decide)
    · exact h
    · exact absurd (by decide) (hnz 2 h)
  subst hn2
  refine ⟨h1, ?_⟩
  rw [h2, h4 (by decide)]
  decide

/-! ## TRAP PUTS -/

/-- C13.  On a machine whose memory has a zero cell, a `TRAP PUTS` word
fetched at an address other than the keyboard-status address terminates: there
is a first zero cell at some offset `n` from `R0` (addresses mod `2^16`), the
machine keeps running, and the output grows by exactly the characters of the
`n` cells before it, in address order, nothing being written for the zero
cell.  The character written for a cell is the one Go gives for
`string(rune(c))`: the cell value itself, unless that is a surrogate half.
Memory and the registers `R0..R6` are unchanged. -/
theorem puts_step (scanf : List Nat → Nat × List Nat) (s : VM) (a instr z : Nat)
    (ha : s.reg R_PC = a) (hk : a ≠ MR_KBSR) (hi : s.memory a = instr)
    (hop : instr >>> 12 = OP_TRAP) (hv : bits instr 7 0 = TRAP_PUTS)
    (hr0 : s.reg R_R0 < 65536) (hz16 : z < 65536) (hz : s.memory z = 0) :
    ∃ n, n < 65536 ∧ s.memory ((s.reg R_R0 + n) % 65536) = 0 ∧
      (∀ k, k < n → s.memory ((s.reg R_R0 + k) % 65536) ≠ 0) ∧
      (step scanf s).status = Status.running ∧
      (step scanf s).vm.out = s.out ++ (cellsFrom s.memory (s.reg R_R0) n).map runeOf ∧
      ((∀ c ∈ cellsFrom s.memory (s.reg R_R0) n, c < 0xD800 ∨ 0xDFFF < c) →
        (step scanf s).vm.out = s.out ++ cellsFrom s.memory (s.reg R_R0) n) ∧
      (step scanf s).vm.memory = s.memory ∧
      (∀ r, r ≤ 6 → (step scanf s).vm.reg r = s.reg r) := by
  subst ha; subst hi
  obtain ⟨n, hn, hzn, hnz⟩ := first_zero_cell s.memory (s.reg R_R0) z hr0 hz16 hz
  have hs := step_puts scanf s n hk hop hv hr0 hn hzn hnz
  obtain ⟨f1, f2, -, -, f5⟩ := trap_frame s ((s.reg R_PC + 1) % 65536)
    (s.out ++ (cellsFrom s.memory (s.reg R_R0) n).map runeOf)
  refine ⟨n, hn, hzn, hnz, ?_⟩
  rw [hs]
  refine ⟨rfl, f5, ?_, f1, f2⟩
  intro hc
  show ({ setReg (setReg s R_PC ((s.reg R_PC + 1) % 65536)) R_R7 ((s.reg R_PC + 1) % 65536) with
        out := s.out ++ (cellsFrom s.memory (s.reg R_R0) n).map runeOf } : VM).out = _
  rw [f5]
  congr 1
  conv_rhs => rw [← List.map_id (cellsFrom s.memory (s.reg R_R0) n)]
  exact List.map_congr_left (fun c hcm => runeOf_of_not_surrogate c (hc c hcm))

/-- C13 at `TRAP PUTS` with `R0 = 0x4000` and the cells `0x48`, `0x69`, `0`
from `0x4000` on: the output is the two characters `Hi`, and `R0` keeps its
value. -/
theorem puts_step_witness :
    (step scanfHead putsVM).status = Status.running ∧
    (step scanfHead putsVM).vm.out = [0x48, 0x69] ∧
    (step scanfHead putsVM).vm.reg R_R0 = 0x4000 := by
  obtain ⟨n, -, hz, hnz, h1, h2, -, -, h5⟩ :=
    puts_step scanfHead putsVM 0x3000 0xF022 0x4002 (by decide) (by decide) (by decide)
      (by decide) (by decide) (by decide) (by decide) (by decide)
  have hn2 : n = 2 := by
    rcases Nat.lt_trichotomy n 2 with h | h | h
    · interval_cases n
      · exact absurd hz (by decide)
      · exact absurd hz (by decide)
    · exact h
    · exact absurd (by decide) (hnz 2 h)
  subst hn2
  exact ⟨h1, h2.trans (by decide), (h5 R_R0 (by decide)).trans (by decide)⟩

/-! ## Where execution starts -/

/-- C14 as stated fails on the image with header word `0x4000`: `main` loads
it and still sets the program counter to `0x3000` before the first fetch, not
to the origin `0x4000` of the image. -/
theorem main_ignores_image_origin :
    beUint16 originImage 0 = 0x4000 ∧
    (main scanfHead [some originImage] [] 0).status = Status.running ∧
    (main scanfHead [some originImage] [] 0).vm.reg R_PC = 0x3000 ∧
    (main scanfHead [some originImage] [] 0).vm.reg R_PC ≠ beUint16 originImage 0 := by
  obtain ⟨s1, h⟩ := main_before_first_fetch scanfHead [some originImage] [] (by decide)
    (by intro f hf; rw [List.mem_singleton] at hf; exact ⟨0x40, [0x00, 0xF0, 0x25], hf⟩)
  have ho : beUint16 originImage 0 = 0x4000 := by decide
  rw [h, ho]
  exact ⟨rfl, rfl, rfl, fun e => absurd (show (0x3000 : Nat) = 0x4000 from e) (by decide)⟩

/-- C14, amended.  Whatever origins the header words of the loaded images
specify, execution starts at `0x3000`: for every nonempty list of image files
that can be opened and are not empty, `main` reaches the loop, and before the
first fetch the program counter is `0x3000` and the condition-flag register is
ZERO. -/
theorem main_start (scanf : List Nat → Nat × List Nat) (args : List (Option (List Nat)))
    (inp : List Nat) (hne : args ≠ []) (hall : ∀ f ∈ args, ∃ b bs, f = some (b :: bs)) :
    (main scanf args inp 0).status = Status.running ∧
    (main scanf args inp 0).vm.reg R_PC = PC_START ∧
    (main scanf args inp 0).vm.reg R_COND = FL_ZRO := by
  obtain ⟨s1, h⟩ := main_before_first_fetch scanf args inp hne hall
  rw [h]
  exact ⟨rfl, rfl, rfl⟩

/-- C14, amended, on the image with header word `0x4000`: before the first
fetch the program counter is `0x3000` and the flag is ZERO. -/
theorem main_start_witness :
    (main scanfHead [some originImage] [] 0).status = Status.running ∧
    (main scanfHead [some originImage] [] 0).vm.reg R_PC = 0x3000 ∧
    (main scanfHead [some originImage] [] 0).vm.reg R_COND = FL_ZRO :=
  main_start scanfHead [some originImage] [] (by decide)
    (by intro f hf; rw [List.mem_singleton] at hf; exact ⟨0x40, [0x00, 0xF0, 0x25], hf⟩)

/-! ## What loading an image overwrites -/

/-- C15 (the code at the failing input).  The first image puts the word
`0x1234` into cell `0x3005`.  The second image has header word `0x3000` and two
payload words, so its block is the cells `0x3000` and `0x3001`, and the claim
has cell `0x3005` keep `0x1234`.  The loop of `readImage` runs over the whole
zero-padded buffer and stores 32767 words, not the two the file holds: it
leaves the two payload words in place and `0` in cell `0x3005`. -/
theorem readImage_clears_cells_beyond_payload :
    beUint16 tailImage 0 = 0x3005 ∧ beUint16 addHaltImage 0 = 0x3000 ∧
    (main scanfHead [some tailImage] [] 0).vm.memory 0x3005 = 0x1234 ∧
    (main scanfHead [some tailImage, some addHaltImage] [] 0).vm.memory 0x3000 = 0x1025 ∧
    (main scanfHead [some tailImage, some addHaltImage] [] 0).vm.memory 0x3001 = 0xF025 ∧
    (main scanfHead [some tailImage, some addHaltImage] [] 0).vm.memory 0x3005 = 0 := by
  have h1 := main_single_image scanfHead 0x30 [0x05, 0x12, 0x34] [] 0
  have h2 := main_two_images scanfHead 0x30 0x30 [0x05, 0x12, 0x34]
    [0x00, 0x10, 0x25, 0xF0, 0x25] [] 0
  rw [show (0x30 :: [0x05, 0x12, 0x34] : List Nat) = tailImage from rfl] at h1 h2
  rw [show (0x30 :: [0x00, 0x10, 0x25, 0xF0, 0x25] : List Nat) = addHaltImage from rfl] at h2
  have ho1 : beUint16 tailImage 0 = 0x3005 := by decide
  have ho2 : beUint16 addHaltImage 0 = 0x3000 := by decide
  rw [ho1] at h1 h2
  rw [ho2] at h2
  rw [h1, h2, run_zero_boot_memory, run_zero_boot_memory]
  have w1 := readImageLoop_written tailImage MEMORY_MAX 2 0x3005 (initVM []) 0
    (by decide) (by decide) (by decide)
    (by intro j h1 h2 h3; simp only [MEMORY_MAX] at h3; omega)
  rw [show (0x3005 + 0) % 65536 = 0x3005 by decide,
    show beUint16 tailImage (2 + 2 * 0) = 0x1234 by decide] at w1
  have w2 := readImageLoop_written addHaltImage MEMORY_MAX 2 0x3000
    (readImageLoop tailImage MEMORY_MAX 2 0x3005 (initVM [])) 5
    (by decide) (by decide) (by decide)
    (by intro j h1 h2 h3; simp only [MEMORY_MAX] at h3; omega)
  rw [show (0x3000 + 5) % 65536 = 0x3005 by decide,
    show beUint16 addHaltImage (2 + 2 * 5) = 0 by decide] at w2
  exact ⟨ho1, ho2, w1, addHalt_cell0 _, addHalt_cell1 _, w2⟩

/-! ## AND -/

/-- C16.  An AND word fetched at an address other than the keyboard-status
address leaves the machine running with, for `r0 = bits[11:9]` and
`r1 = bits[8:6]`: `reg[r0] = reg[r1] AND signExtend(bits[4:0], 5)` when bit 5
is set, and `reg[r0] = reg[r1] AND reg[r2]` with `r2 = bits[2:0]` when bit 5 is
clear, the operands being the values held before the step.  `PC` advances by
one, and memory and the other general registers are unchanged. -/
theorem and_step (scanf : List Nat → Nat × List Nat) (s : VM) (a instr : Nat)
    (ha : s.reg R_PC = a) (hk : a ≠ MR_KBSR) (hi : s.memory a = instr)
    (hop : instr >>> 12 = OP_AND) :
    (step scanf s).status = Status.running ∧
    (bits instr 5 5 = 1 →
      (step scanf s).vm.reg (bits instr 11 9) =
        s.reg (bits instr 8 6) &&& signExtend (bits instr 4 0) 5) ∧
    (bits instr 5 5 = 0 →
      (step scanf s).vm.reg (bits instr 11 9) =
        s.reg (bits instr 8 6) &&& s.reg (bits instr 2 0)) ∧
    (step scanf s).vm.reg R_PC = (a + 1) % 65536 ∧
    (∀ r, r ≤ 7 → r ≠ bits instr 11 9 → (step scanf s).vm.reg r = s.reg r) ∧
    (step scanf s).vm.memory = s.memory := by
  subst ha; subst hi
  have h0 := bits_lt_8 (s.memory (s.reg R_PC)) 9
  have h1 := bits_lt_8 (s.memory (s.reg R_PC)) 6
  have h2 := bits_lt_8 (s.memory (s.reg R_PC)) 0
  have hs := step_fetch scanf s hk
  rw [exec_and scanf _ _ hop, setReg_pc_reg s _ _ h1, setReg_pc_reg s _ _ h2] at hs
  by_cases hb : bits (s.memory (s.reg R_PC)) 5 5 > 0
  · rw [if_pos hb] at hs
    obtain ⟨e1, e2, e3, e4, -⟩ := setter_effect s ((s.reg R_PC + 1) % 65536) _
      (s.reg (bits (s.memory (s.reg R_PC)) 8 6) &&&
        signExtend (bits (s.memory (s.reg R_PC)) 4 0) 5) h0
    rw [hs]
    exact ⟨rfl, fun _ => e1, fun h => by omega, e2, e3, e4⟩
  · rw [if_neg hb] at hs
    obtain ⟨e1, e2, e3, e4, -⟩ := setter_effect s ((s.reg R_PC + 1) % 65536) _
      (s.reg (bits (s.memory (s.reg R_PC)) 8 6) &&&
        s.reg (bits (s.memory (s.reg R_PC)) 2 0)) h0
    rw [hs]
    exact ⟨rfl, fun h => by omega, fun _ => e1, e2, e3, e4⟩

/-- C16 at `AND R2, R1, R3` fetched at `0x3000` with `R1 = 0x0FF0` and
`R3 = 0x3C3C`: the step leaves `R2 = 0x0C30`. -/
theorem and_step_witness :
    bits 0x5443 11 9 = R_R2 ∧ bits 0x5443 8 6 = R_R1 ∧ bits 0x5443 2 0 = R_R3 ∧
    (step scanfHead andVM).status = Status.running ∧
    (step scanfHead andVM).vm.reg R_R2 = 0x0C30 :=
  have h := and_step scanfHead andVM 0x3000 0x5443 (by decide) (by decide) (by decide)
    (by decide)
  ⟨by decide, by decide, by decide, h.1, (h.2.2.1 (by decide)).trans (by decide)⟩

/-! ## The incremented program counter and LEA -/

/-- C17.  For every instruction word fetched at an address `a` other than the
keyboard-status address, the opcode body runs on a machine that differs from
the one before the step only in `PC = (a + 1) mod 2^16`.  For a LEA word the
step leaves the machine running with
`reg[r0] = (a + 1 + signExtend(bits[8:0], 9)) mod 2^16` for `r0 = bits[11:9]`
and `PC = (a + 1) mod 2^16`; memory and both streams are unchanged, and
nothing is required of the computed address, which is never read. -/
theorem lea_step (scanf : List Nat → Nat × List Nat) (s : VM) (a instr : Nat)
    (ha : s.reg R_PC = a) (hk : a ≠ MR_KBSR) (hi : s.memory a = instr) :
    step scanf s = exec scanf instr (setReg s R_PC ((a + 1) % 65536)) ∧
    (setReg s R_PC ((a + 1) % 65536)).reg R_PC = (a + 1) % 65536 ∧
    (instr >>> 12 = OP_LEA →
      (step scanf s).status = Status.running ∧
      (step scanf s).vm.reg (bits instr 11 9) =
        (a + 1 + signExtend (bits instr 8 0) 9) % 65536 ∧
      (step scanf s).vm.reg R_PC = (a + 1) % 65536 ∧
      (step scanf s).vm.memory = s.memory ∧
      (step scanf s).vm.out = s.out ∧ (step scanf s).vm.inp = s.inp) := by
  subst ha; subst hi
  have hs := step_fetch scanf s hk
  refine ⟨hs, by simp [setReg], ?_⟩
  intro hop
  rw [exec_lea scanf _ _ hop] at hs
  have hpc : (setReg s R_PC ((s.reg R_PC + 1) % 65536)).reg R_PC = (s.reg R_PC + 1) % 65536 := by
    simp [setReg]
  rw [hpc] at hs
  obtain ⟨e1, e2, -, e4, e5, e6, -⟩ := setter_effect s ((s.reg R_PC + 1) % 65536) _
    (((s.reg R_PC + 1) % 65536 + signExtend (bits (s.memory (s.reg R_PC)) 8 0) 9) % 65536)
    (bits_lt_8 (s.memory (s.reg R_PC)) 9)
  rw [hs]
  refine ⟨rfl, ?_, e2, e4, e5, e6⟩
  rw [e1]; omega

/-- C17 at `LEA R0, #-2` fetched at `0x3000`: the step leaves `R0 = 0x2FFF`
(two below the next instruction) and `PC = 0x3001`. -/
theorem lea_step_witness :
    bits 0xE1FE 11 9 = R_R0 ∧ signExtend (bits 0xE1FE 8 0) 9 = 0xFFFE ∧
    (step scanfHead leaVM).status = Status.running ∧
    (step scanfHead leaVM).vm.reg R_R0 = 0x2FFF ∧
    (step scanfHead leaVM).vm.reg R_PC = 0x3001 :=
  have h := (lea_step scanfHead leaVM 0x3000 0xE1FE (by decide) (by decide) (by decide)).2.2
    (by decide)
  ⟨by decide, by decide, h.1, h.2.1.trans (by decide), h.2.2.1⟩

/-! ## The condition flag after each instruction -/

/-- C18.  On a machine whose registers and memory cells hold 16-bit values,
for an instruction word fetched at an address `a` other than the
keyboard-status address, with `r0 = bits[11:9]`: after ADD, AND, NOT, LEA, and
after LD, LDI, LDR when the address they read is not the keyboard-status
address, the machine is running and the condition-flag register holds exactly
one flag, the one determined by the new value of `reg[r0]`; after ST, STR, BR,
JMP, JSR, and after STI when the address it reads is not the keyboard-status
address, the condition-flag register holds the value it held before. -/
theorem cond_flag_step (scanf : List Nat → Nat × List Nat) (s : VM) (a instr : Nat)
    (ha : s.reg R_PC = a) (hk : a ≠ MR_KBSR) (hi : s.memory a = instr)
    (hreg : ∀ r, s.reg r < 65536) (hmem : ∀ x, s.memory x < 65536) :
    ((instr >>> 12 = OP_ADD ∨ instr >>> 12 = OP_AND ∨ instr >>> 12 = OP_NOT ∨
        instr >>> 12 = OP_LEA) →
      FlagsSet (step scanf s) (bits instr 11 9)) ∧
    ((instr >>> 12 = OP_LD ∨ instr >>> 12 = OP_LDI) →
      (a + 1 + signExtend (bits instr 8 0) 9) % 65536 ≠ MR_KBSR →
      FlagsSet (step scanf s) (bits instr 11 9)) ∧
    (instr >>> 12 = OP_LDR →
      (s.reg (bits instr 8 6) + signExtend (bits instr 5 0) 6) % 65536 ≠ MR_KBSR →
      FlagsSet (step scanf s) (bits instr 11 9)) ∧
    ((instr >>> 12 = OP_ST ∨ instr >>> 12 = OP_STR ∨ instr >>> 12 = OP_BR ∨
        instr >>> 12 = OP_JMP ∨ instr >>> 12 = OP_JSR) →
      (step scanf s).status = Status.running ∧
      (step scanf s).vm.reg R_COND = s.reg R_COND) ∧
    (instr >>> 12 = OP_STI →
      (a + 1 + signExtend (bits instr 8 0) 9) % 65536 ≠ MR_KBSR →
      (step scanf s).status = Status.running ∧
      (step scanf s).vm.reg R_COND = s.reg R_COND) := by
  subst ha; subst hi
  have hs := step_fetch scanf s hk
  have h0 := bits_lt_8 (s.memory (s.reg R_PC)) 9
  have h1 := bits_lt_8 (s.memory (s.reg R_PC)) 6
  have hpc : (setReg s R_PC ((s.reg R_PC + 1) % 65536)).reg R_PC = (s.reg R_PC + 1) % 65536 := by
    simp [setReg]
  have hp : ((s.reg R_PC + 1) % 65536 + signExtend (bits (s.memory (s.reg R_PC)) 8 0) 9) % 65536
      = (s.reg R_PC + 1 + signExtend (bits (s.memory (s.reg R_PC)) 8 0) 9) % 65536 := by omega
  refine ⟨?_, ?_, ?_, ?_, ?_⟩
  · rintro (hop | hop | hop | hop)
    · rw [exec_add scanf _ _ hop] at hs
      rw [hs]
      split
      · exact setter_flags s _ _ _ h0 (Nat.mod_lt _ (by decide))
      · exact setter_flags s _ _ _ h0 (Nat.mod_lt _ (by decide))
    · rw [exec_and scanf _ _ hop, setReg_pc_reg s _ _ h1] at hs
      rw [hs]
      split
      · exact setter_flags s _ _ _ h0 (Nat.lt_of_le_of_lt Nat.and_le_left (hreg _))
      · exact setter_flags s _ _ _ h0 (Nat.lt_of_le_of_lt Nat.and_le_left (hreg _))
    · rw [exec_not scanf _ _ hop, setReg_pc_reg s _ _ h1] at hs
      rw [hs]
      exact setter_flags s _ _ _ h0
        (Nat.xor_lt_two_pow (n := 16) (hreg _) (by decide))
    · rw [exec_lea scanf _ _ hop] at hs
      rw [hs]
      exact setter_flags s _ _ _ h0 (Nat.mod_lt _ (by decide))
  · intro hop hq
    rw [exec_ld scanf _ _ hop (by rw [hpc, hp]; exact hq)] at hs
    rw [hs]
    exact setter_flags s _ _ _ h0 (hmem _)
  · intro hop hq
    rw [exec_ldr scanf _ _ hop (by rw [setReg_pc_reg s _ _ h1]; exact hq)] at hs
    rw [hs]
    exact setter_flags s _ _ _ h0 (hmem _)
  · rintro (hop | hop | hop | hop | hop)
    · rw [exec_st scanf _ _ hop] at hs
      rw [hs]; exact ⟨rfl, by simp [memWrite, setReg]⟩
    · rw [exec_str scanf _ _ hop] at hs
      rw [hs]; exact ⟨rfl, by simp [memWrite, setReg]⟩
    · rw [exec_br scanf _ _ hop] at hs
      rw [hs]
      split
      · exact ⟨rfl, by simp [setReg]⟩
      · exact ⟨rfl, by simp [setReg]⟩
    · rw [exec_jmp scanf _ _ hop] at hs
      rw [hs]; exact ⟨rfl, by simp [setReg]⟩
    · rw [exec_jsr scanf _ _ hop] at hs
      rw [hs]
      split
      · exact ⟨rfl, by simp [setReg]⟩
      · exact ⟨rfl, by simp [setReg]⟩
  · intro hop hq
    rw [exec_sti scanf _ _ hop (by rw [hpc, hp]; exact hq)] at hs
    rw [hs]; exact ⟨rfl, by simp [memWrite, setReg]⟩

/-- C18 at `NOT R1, R2` fetched at `0x3000` with `R2 = 0x00FF` and the flag
ZERO: the step leaves `R1 = 0xFF00` and the flag NEGATIVE. -/
theorem cond_flag_step_witness :
    0x92BF >>> 12 = OP_NOT ∧ bits 0x92BF 11 9 = R_R1 ∧
    (step scanfHead notVM).vm.reg R_R1 = 0xFF00 ∧
    (step scanfHead notVM).vm.reg R_COND = FL_NEG :=
  have h := (cond_flag_step scanfHead notVM 0x3000 0x92BF (by decide) (by decide) (by decide)
    (fun r => lookup_getD_lt _ (by decide) r)
    (fun x => lookup_getD_lt _ (by decide) x)).1
    (Or.inr (Or.inr (Or.inl (by decide))))
  ⟨by decide, by decide, by decide, h.2.1.trans (by decide)⟩

/-! ## ST, STI, STR -/

/-- C19.  For a store word fetched at an address `a` other than the
keyboard-status address, with `r0 = bits[11:9]` and
`p = (a + 1 + signExtend(bits[8:0], 9)) mod 2^16`: ST writes `reg[r0]` to cell
`p`; STI, when `p` is not the keyboard-status address, writes `reg[r0]` to the
cell whose address is the content of cell `p`; STR writes `reg[r0]` to cell
`(reg[r1] + signExtend(bits[5:0], 6)) mod 2^16` with `r1 = bits[8:6]`.  In each
case the machine keeps running, every other cell and every register but `PC`
is unchanged, and `PC = (a + 1) mod 2^16`. -/
theorem store_step (scanf : List Nat → Nat × List Nat) (s : VM) (a instr : Nat)
    (ha : s.reg R_PC = a) (hk : a ≠ MR_KBSR) (hi : s.memory a = instr) :
    (instr >>> 12 = OP_ST →
      StoreEffect s a (step scanf s)
        ((a + 1 + signExtend (bits instr 8 0) 9) % 65536) (s.reg (bits instr 11 9))) ∧
    (instr >>> 12 = OP_STI → (a + 1 + signExtend (bits instr 8 0) 9) % 65536 ≠ MR_KBSR →
      StoreEffect s a (step scanf s)
        (s.memory ((a + 1 + signExtend (bits instr 8 0) 9) % 65536))
        (s.reg (bits instr 11 9))) ∧
    (instr >>> 12 = OP_STR →
      StoreEffect s a (step scanf s)
        ((s.reg (bits instr 8 6) + signExtend (bits instr 5 0) 6) % 65536)
        (s.reg (bits instr 11 9))) := by
  subst ha; subst hi
  have hs := step_fetch scanf s hk
  have h0 := bits_lt_8 (s.memory (s.reg R_PC)) 9
  have h1 := bits_lt_8 (s.memory (s.reg R_PC)) 6
  have hpc : (setReg s R_PC ((s.reg R_PC + 1) % 65536)).reg R_PC = (s.reg R_PC + 1) % 65536 := by
    simp [setReg]
  have hp : ((s.reg R_PC + 1) % 65536 + signExtend (bits (s.memory (s.reg R_PC)) 8 0) 9) % 65536
      = (s.reg R_PC + 1 + signExtend (bits (s.memory (s.reg R_PC)) 8 0) 9) % 65536 := by omega
  refine ⟨?_, ?_, ?_⟩
  · intro hop
    rw [exec_st scanf _ _ hop, hpc, hp, setReg_pc_reg s _ _ h0] at hs
    rw [hs]
    exact memWrite_effect s _ _ _ _ rfl
  · intro hop hq
    rw [exec_sti scanf _ _ hop (by rw [hpc, hp]; exact hq), hpc, hp,
      setReg_pc_reg s _ _ h0] at hs
    rw [hs]
    exact memWrite_effect s _ _ _ _ rfl
  · intro hop
    rw [exec_str scanf _ _ hop, setReg_pc_reg s _ _ h0, setReg_pc_reg s _ _ h1] at hs
    rw [hs]
    exact memWrite_effect s _ _ _ _ rfl

/-- C19 at `STI R1, #1` fetched at `0x3000` with `R1 = 0x00AB` and the pointer
`0x4000` in cell `0x3002`: the step leaves `0x00AB` in cell `0x4000`, the
pointer cell and `R1` as they were, and `PC = 0x3001`. -/
theorem store_step_witness :
    (step scanfHead stiVM).status = Status.running ∧
    (step scanfHead stiVM).vm.memory 0x4000 = 0x00AB ∧
    (step scanfHead stiVM).vm.memory 0x3002 = 0x4000 ∧
    (step scanfHead stiVM).vm.reg R_R1 = 0x00AB ∧
    (step scanfHead stiVM).vm.reg R_PC = 0x3001 :=
  have h := (store_step scanfHead stiVM 0x3000 0xB201 (by decide) (by decide)
    (by decide)).2.1 (by decide) (by decide)
  ⟨h.1, h.2.1, (h.2.2.1 0x3002 (by decide)).trans (by decide),
    (h.2.2.2.1 R_R1 (by decide)).trans (by decide), h.2.2.2.2⟩

/-! ## TRAP IN -/

/-- C20 (the code at the failing input).  With the character `A` (code `0x41`)
pending on standard input, the claim asks `TRAP IN` to leave `R0 = 0x41` and
to consume the character.  The code prints the prompt and the never-assigned
byte `b`, reads nothing, and leaves `R0 = 0`, the flag ZERO and the input
untouched; `R7` is the incremented `PC` as claimed.  `TRAP GETC` on the same input
does read the character. -/
theorem trap_in_reads_nothing :
    0xF023 >>> 12 = OP_TRAP ∧ bits 0xF023 7 0 = TRAP_IN ∧ inVM.inp = [0x41] ∧
    (step scanfHead inVM).status = Status.running ∧
    (step scanfHead inVM).vm.reg R_R0 = 0 ∧
    (step scanfHead inVM).vm.inp = [0x41] ∧
    (step scanfHead inVM).vm.out = promptText ++ [0] ∧
    (step scanfHead inVM).vm.reg R_COND = FL_ZRO ∧
    (step scanfHead inVM).vm.reg R_R7 = 0x3001 ∧
    (step scanfHead getcVM).vm.reg R_R0 = 0x41 ∧
    (step scanfHead getcVM).vm.inp = [] := by
  decide

end SmallVm
